import Mathlib

/-!
A verification development for the antfarm step-operations engine and its
installer gateway client.

The repository ships the installer type declarations (`src/installer/types.ts`),
the gateway client (`src/installer/gateway-api.ts`), and the approved design
document for story-based execution.  The step-operations engine itself
(`step-ops.ts`) is not part of the sources here, so the engine, the output
parser and the template resolver are modelled from the specification (and from
the code fragments embedded in the design document, such as
`readProgressFile`).  The gateway client is translated directly from
`gateway-api.ts`.
-/

namespace Antfarm

/-! ## Character and line utilities

Agent output is free text scanned line by line.  We model a line as a
`List Char`; `linesOf` splits on newline characters exactly as
`output.split("\n")` does. -/

def isUpperCh (c : Char) : Bool := 'A' ≤ c && c ≤ 'Z'

def isDigitCh (c : Char) : Bool := '0' ≤ c && c ≤ '9'

def isKeyStart (c : Char) : Bool := isUpperCh c || c = '_'

def isKeyCh (c : Char) : Bool := isUpperCh c || isDigitCh c || c = '_'

def isWsCh (c : Char) : Bool := c = ' ' || c = '\t'

/-- After the leading `[A-Z_]` character, a context-key line consists of
further `[A-Z0-9_]` characters, a colon, and a whitespace character. -/
def keyTail : List Char → Bool
  | [] => false
  | ':' :: rest =>
    match rest with
    | [] => false
    | c :: _ => isWsCh c
  | c :: rest => isKeyCh c && keyTail rest

/-- Modelled from the spec: a line is a context write when it matches
the anchored pattern of an uppercase key, a colon and a whitespace
character (`^[A-Z_][A-Z0-9_]*:\s`). -/
def isKeyLine (l : List Char) : Bool :=
  match l with
  | [] => false
  | c :: rest => isKeyStart c && keyTail rest

def splitLinesAux : List Char → List Char → List (List Char)
  | [], acc => [acc.reverse]
  | '\n' :: rest, acc => acc.reverse :: splitLinesAux rest []
  | c :: rest, acc => splitLinesAux rest (c :: acc)

def linesOf (s : String) : List (List Char) := splitLinesAux s.data []

def pfxOf : List Char → List Char → Bool
  | [], _ => true
  | _ :: _, [] => false
  | p :: ps, c :: cs => p = c && pfxOf ps cs

/-- Join a list of lines back with newline separators. -/
def joinLines : List (List Char) → List Char
  | [] => []
  | [l] => l
  | l :: rest => l ++ '\n' :: joinLines rest

/-- Lines following a marker line belong to the marker's span until the
first line that independently matches the context-key pattern. -/
def collectSpan : List (List Char) → List (List Char)
  | [] => []
  | l :: rest => if isKeyLine l then [] else l :: collectSpan rest

/-- Modelled from the spec: find the first line carrying the given marker
prefix and return everything after the marker on that line, concatenated
with every subsequent line up to (exclusive) the next context-key line or
end of output.  This is the span scanner used for both `STORIES_JSON:`
and `ISSUES:`; `step-ops.ts` is absent from the sources. -/
def extractAfter (marker : List Char) : List (List Char) → Option (List Char)
  | [] => none
  | l :: rest =>
    if pfxOf marker l then
      some (joinLines (l.drop marker.length :: collectSpan rest))
    else extractAfter marker rest

def storiesMarker : List Char := "STORIES_JSON:".data

def issuesMarker : List Char := "ISSUES:".data

/-! ## Output parser -/

/-- Terminal status reported by an agent (`StepResult.status`). -/
inductive ResStatus
  | done
  | retry
  | blocked
deriving DecidableEq

/-- A line authoritative for the run status matches
`STATUS: (done|retry|blocked)`. -/
def statusOf (l : List Char) : Option ResStatus :=
  if l = "STATUS: done".data then some .done
  else if l = "STATUS: retry".data then some .retry
  else if l = "STATUS: blocked".data then some .blocked
  else none

def firstStatus : List (List Char) → Option ResStatus
  | [] => none
  | l :: rest =>
    match statusOf l with
    | some d => some d
    | none => firstStatus rest

def splitColon : List Char → Option (List Char × List Char)
  | [] => none
  | ':' :: rest => some ([], rest)
  | c :: rest => (splitColon rest).map (fun p => (c :: p.1, p.2))

def lowerCh (c : Char) : Char :=
  if isUpperCh c then Char.ofNat (c.toNat + 32) else c

/-- Modelled from the spec: a context-key line `KEY: value` writes `value`
under the lower-cased key; the three structural markers are not context
writes. -/
def kvOf (l : List Char) : Option (String × String) :=
  if isKeyLine l then
    match splitColon l with
    | some (k, v) =>
      if k = "STATUS".data || k = "STORIES_JSON".data || k = "ISSUES".data then none
      else some (String.mk (k.map lowerCh), String.mk (v.dropWhile isWsCh))
    | none => none
  else none

def kvPairs (lines : List (List Char)) : List (String × String) :=
  lines.filterMap kvOf

structure ParsedOutput where
  status : ResStatus
  kv : List (String × String)
  storiesText : Option String
  verifyFeedback : Option String
deriving DecidableEq

/-- Modelled from the spec: one line scan extracting the authoritative
`STATUS` (absence means `done`), the context writes, the raw
`STORIES_JSON` span, and — only for `retry` status — the `ISSUES:` block
exposed as `verify_feedback`. -/
def parseOutput (out : String) : ParsedOutput :=
  let lines := linesOf out
  let status := (firstStatus lines).getD .done
  { status := status
    kv := kvPairs lines
    storiesText := (extractAfter storiesMarker lines).map String.mk
    verifyFeedback :=
      if status = .retry then (extractAfter issuesMarker lines).map String.mk
      else none }

/-! ## JSON values and STORIES_JSON validation

`JSON.parse` is a platform primitive; the engine model abstracts it as a
function `String → Option Json` supplied by the environment.  Validation
of the parsed value is modelled here. -/

inductive Json
  | jnull
  | jbool (b : Bool)
  | jnum (n : Int)
  | jstr (s : String)
  | jarr (xs : List Json)
  | jobj (fs : List (String × Json))

/-- One element of a valid `STORIES_JSON` payload. -/
structure ParsedStory where
  id : String
  title : String
  description : String
  acceptanceCriteria : List String
deriving DecidableEq

def getField (fs : List (String × Json)) (k : String) : Option Json :=
  (fs.find? (fun f => f.1 = k)).map (fun f => f.2)

def asStr : Json → Option String
  | .jstr s => some s
  | _ => none

def mapOpt (f : α → Option β) : List α → Option (List β)
  | [] => some []
  | a :: rest =>
    match f a with
    | none => none
    | some b => (mapOpt f rest).map (fun bs => b :: bs)

def asStrList : Json → Option (List String)
  | .jarr xs => mapOpt asStr xs
  | _ => none

/-- Modelled from the spec: a story element must be an object with
`id`, `title`, `description` strings and a non-empty `acceptanceCriteria`
array of strings (`step-ops.ts` is absent from the sources). -/
def parseStoryObj : Json → Option ParsedStory
  | .jobj fs =>
    match getField fs "id" >>= asStr with
    | none => none
    | some i =>
      match getField fs "title" >>= asStr with
      | none => none
      | some t =>
        match getField fs "description" >>= asStr with
        | none => none
        | some d =>
          match getField fs "acceptanceCriteria" >>= asStrList with
          | none => none
          | some ac => if ac = [] then none else some ⟨i, t, d, ac⟩
  | _ => none

/-- The `id` of a candidate story element, when extractable. -/
def idOf : Json → Option String
  | .jobj fs => getField fs "id" >>= asStr
  | _ => none

/-- Modelled from the spec: a `STORIES_JSON` payload must be an array of
at most 20 valid story objects with pairwise distinct ids. -/
def validateStories : Json → Option (List ParsedStory)
  | .jarr xs =>
    if xs.length > 20 then none
    else
      match mapOpt parseStoryObj xs with
      | none => none
      | some ps => if (ps.map (fun p => p.id)).Nodup then some ps else none
  | _ => none

/-! ## Template resolver

`{{name}}` placeholders are substituted from a name→value map; unresolved
placeholders become the empty string. -/

def lookupVar (vars : List (String × String)) (n : String) : Option String :=
  (vars.find? (fun v => v.1 = n)).map (fun v => v.2)

/-- Scan up to the closing braces of a placeholder, returning the name
characters and the remainder of the input. -/
def grabName : List Char → Option (List Char × List Char)
  | [] => none
  | c :: rest =>
    if c = '}' ∧ rest.head? = some '}' then some ([], rest.tail)
    else (grabName rest).map (fun p => (c :: p.1, p.2))

/-- Modelled from the spec: replace every `{{name}}` occurrence by the
bound value, or the empty string when unresolved.  The fuel argument,
instantiated with the input length, bounds the scan; every recursive call
consumes at least one character, so the length suffices. -/
def renderCharsF (vars : List (String × String)) : Nat → List Char → List Char
  | 0, l => l
  | _ + 1, [] => []
  | fuel + 1, '{' :: '{' :: rest =>
    match grabName rest with
    | some (n, r) =>
      ((lookupVar vars (String.mk n)).getD "").data ++ renderCharsF vars fuel r
    | none => '{' :: '{' :: rest
  | fuel + 1, c :: rest => c :: renderCharsF vars fuel rest

def renderChars (vars : List (String × String)) (l : List Char) : List Char :=
  renderCharsF vars l.length l

def render (vars : List (String × String)) (s : String) : String :=
  String.mk (renderChars vars s.data)

/-! ## Data model

Statuses and entity rows, following `src/installer/types.ts` and the
`steps` / `stories` schema of the design document.  The model covers one
run: every claim under scrutiny concerns the mechanics inside a single
run. -/

inductive StepStatus
  | waiting
  | pending
  | running
  | done
  | failed
deriving DecidableEq

inductive StoryStatus
  | pending
  | running
  | done
  | failed
deriving DecidableEq

inductive RunStatus
  | running
  | paused
  | blocked
  | completed
  | canceled
deriving DecidableEq

inductive StepType
  | single
  | loop
deriving DecidableEq

structure LoopConfig where
  freshSession : Bool := true
  verifyEach : Bool := false
  verifyStep : Option String := none
deriving DecidableEq

structure OnFail where
  retryStep : Option String := none
  escalateTo : Option String := none
deriving DecidableEq

structure StepInst where
  defId : String
  agentId : String
  stepIndex : Nat
  type : StepType := .single
  loop : Option LoopConfig := none
  input : String := ""
  expects : String := ""
  maxRetries : Nat := 2
  onFail : Option OnFail := none
  status : StepStatus := .waiting
  retryCount : Nat := 0
  currentStoryId : Option String := none
deriving DecidableEq

structure Story where
  storyIndex : Nat
  storyId : String
  title : String
  description : String
  acceptanceCriteria : List String
  status : StoryStatus := .pending
  output : Option String := none
  retryCount : Nat := 0
  maxRetries : Nat := 2
deriving DecidableEq

structure StepResult where
  stepId : String
  agentId : String
  output : String
  status : ResStatus
deriving DecidableEq

/-- The durable state of one run: run row, step rows, story rows, the
key/value context and the append-only step results.  `lastDoneStory`
records the most-recently-done story, the target of a verify `retry`. -/
structure RunState where
  status : RunStatus := .running
  context : List (String × String) := []
  steps : List StepInst := []
  stories : List Story := []
  stepResults : List StepResult := []
  lastDoneStory : Option String := none
deriving DecidableEq

/-! ### Row access and single-row updates

Step definition ids are unique within a spec and story ids unique within
a run, so a row update by id touches the first matching row, mirroring a
keyed SQL `UPDATE`. -/

def updFirst (key : α → String) (id : String) (f : α → α) : List α → List α
  | [] => []
  | a :: rest => if key a = id then f a :: rest else a :: updFirst key id f rest

/-- Named row mutators, mirroring the single-column SQL `UPDATE`s. -/
def setStepStatus (v : StepStatus) (s : StepInst) : StepInst := { s with status := v }

def setStepRunningOn (sid : String) (s : StepInst) : StepInst :=
  { s with status := .running, currentStoryId := some sid }

def clearCurrentStory (s : StepInst) : StepInst := { s with currentStoryId := none }

def clearRetryCount (s : StepInst) : StepInst := { s with retryCount := 0 }

def setStoryStatus (v : StoryStatus) (s : Story) : Story := { s with status := v }

def setStoryDone (out : String) (s : Story) : Story :=
  { s with status := .done, output := some out }

def setStoryRetry (v : StoryStatus) (rc : Nat) (s : Story) : Story :=
  { s with status := v, retryCount := rc }

def findStep (st : RunState) (id : String) : Option StepInst :=
  st.steps.find? (fun s => s.defId = id)

def findStory (st : RunState) (id : String) : Option Story :=
  st.stories.find? (fun s => s.storyId = id)

def updStep (st : RunState) (id : String) (f : StepInst → StepInst) : RunState :=
  { st with steps := updFirst (fun s => s.defId) id f st.steps }

def updStory (st : RunState) (id : String) (f : Story → Story) : RunState :=
  { st with stories := updFirst (fun s => s.storyId) id f st.stories }

def stepStatusIn (st : RunState) (id : String) : Option StepStatus :=
  (findStep st id).map (fun s => s.status)

def storyStatusIn (st : RunState) (id : String) : Option StoryStatus :=
  (findStory st id).map (fun s => s.status)

def ctxGet (st : RunState) (k : String) : Option String :=
  (st.context.find? (fun e => e.1 = k)).map (fun e => e.2)

/-- Last-writer-wins context write. -/
def ctxSet (st : RunState) (k v : String) : RunState :=
  { st with context := (k, v) :: st.context.filter (fun e => e.1 ≠ k) }

def ctxDel (st : RunState) (k : String) : RunState :=
  { st with context := st.context.filter (fun e => e.1 ≠ k) }

def mergeCtx (st : RunState) : List (String × String) → RunState
  | [] => st
  | (k, v) :: rest => mergeCtx (ctxSet st k v) rest

def appendResult (st : RunState) (r : StepResult) : RunState :=
  { st with stepResults := st.stepResults ++ [r] }

/-- The `StepResult` originally recorded for a step: the first one
appended under its definition id. -/
def resultFor (st : RunState) (id : String) : Option StepResult :=
  st.stepResults.find? (fun r => r.stepId = id)

def hasPendingStory (st : RunState) : Bool :=
  st.stories.any (fun s => s.status = .pending)

/-- The engine selects the lowest-`storyIndex` pending story. -/
def minByStoryIdx : List Story → Option Story
  | [] => none
  | s :: rest =>
    match minByStoryIdx rest with
    | none => some s
    | some t => if s.storyIndex ≤ t.storyIndex then some s else some t

def selectStory (st : RunState) : Option Story :=
  minByStoryIdx (st.stories.filter (fun s => s.status = .pending))

/-- The engine selects the lowest-order pending step of the agent. -/
def minByStepIdx : List StepInst → Option StepInst
  | [] => none
  | s :: rest =>
    match minByStepIdx rest with
    | none => some s
    | some t => if s.stepIndex ≤ t.stepIndex then some s else some t

def selectPendingStep (st : RunState) (agentId : String) : Option StepInst :=
  minByStepIdx (st.steps.filter (fun s => s.status = .pending && s.agentId = agentId))

/-! ## Workspace bridge

Translated from the `resolveProgressFilePath` / `getAgentWorkspacePath` /
`readProgressFile` code in the design document.  The filesystem and the
OpenClaw agent registry are abstracted as an environment: `fs` maps a
path to its contents, `none` meaning absent or unreadable (the code's
caught `readFileSync` exception); `agentWorkspace` is the
installed-workflow registry lookup. -/

structure Env where
  fs : String → Option String
  agentWorkspace : String → Option String

def resolveProgressFilePath (env : Env) (st : RunState) : Option String :=
  match st.steps.find? (fun s => s.type = StepType.loop) with
  | none => none
  | some ls =>
    match env.agentWorkspace ls.agentId with
    | none => none
    | some ws => some (ws ++ "/progress.txt")

def readProgressFile (env : Env) (st : RunState) : String :=
  match resolveProgressFilePath env st with
  | none => "(no progress file)"
  | some p =>
    match env.fs p with
    | some content => content
    | none => "(no progress yet)"

/-! ## Loop-aware template variables -/

def natStr (n : Nat) : String := toString n

def numberedFrom (i : Nat) : List String → String
  | [] => ""
  | c :: rest => natStr i ++ ". " ++ c ++ "\n" ++ numberedFrom (i + 1) rest

/-- Modelled from the spec: a formatted block with story id, title,
description and numbered acceptance criteria. -/
def fmtStory (s : Story) : String :=
  "Story " ++ s.storyId ++ ": " ++ s.title ++ "\n" ++ s.description ++ "\n" ++
    numberedFrom 1 s.acceptanceCriteria

def completedSummary (stories : List Story) : String :=
  String.intercalate "\n"
    ((stories.filter (fun s => s.status = .done)).map (fun s => "- " ++ s.storyId ++ ": " ++ s.title))

/-- The story a claimed template refers to: the loop step's
`currentStoryId` while one is in flight, else the most-recently-done
story (the one a verifier is judging). -/
def currentStoryFor (st : RunState) : Option Story :=
  match st.steps.find? (fun s => s.type = StepType.loop) with
  | none => none
  | some ls =>
    match ls.currentStoryId with
    | some sid => findStory st sid
    | none => st.lastDoneStory.bind (findStory st)

/-- Modelled from the spec: the dynamic variables provided whenever the
run has stories; they shadow equally named context keys. -/
def loopVars (env : Env) (st : RunState) : List (String × String) :=
  let cur := currentStoryFor st
  [("current_story", (cur.map fmtStory).getD ""),
   ("current_story_id", (cur.map (fun s => s.storyId)).getD ""),
   ("current_story_title", (cur.map (fun s => s.title)).getD ""),
   ("completed_stories", completedSummary st.stories),
   ("stories_remaining", natStr (st.stories.filter (fun s => s.status = .pending)).length),
   ("verify_feedback", (ctxGet st "verify_feedback").getD ""),
   ("progress", readProgressFile env st)]

def buildVars (env : Env) (st : RunState) : List (String × String) :=
  if st.stories.isEmpty then st.context else loopVars env st ++ st.context

/-! ## Pipeline advancement and failure semantics -/

/-- Modelled from the spec: set the lowest-index waiting step to pending;
when none remains the run is completed. -/
def advancePipeline (st : RunState) : RunState :=
  match minByStepIdx (st.steps.filter (fun s => s.status = .waiting)) with
  | some w => updStep st w.defId (setStepStatus .pending)
  | none => { st with status := .completed }

/-- The `onFail.retryStep` rewind: every step between the named retry
step and the failed one, inclusive, is reset to waiting; the named step
becomes pending and the failed step's retry count is cleared. -/
def rewindSteps (st1 : RunState) (failedId rid : String) : RunState :=
  match findStep st1 rid, findStep st1 failedId with
  | some rs, some fs =>
    updStep (updStep { st1 with
      steps := st1.steps.map (fun s =>
        if min rs.stepIndex fs.stepIndex ≤ s.stepIndex &&
            s.stepIndex ≤ max rs.stepIndex fs.stepIndex then
          setStepStatus .waiting s
        else s) } rid (setStepStatus .pending)) failedId clearRetryCount
  | _, _ => st1

def applyRetryStep (st1 : RunState) (failedId : String) (conf : OnFail) : RunState :=
  match conf.retryStep with
  | some rid => rewindSteps st1 failedId rid
  | none => st1

def applyEscalate (st2 : RunState) (conf : OnFail) : RunState :=
  match conf.escalateTo with
  | some ag => ctxSet { st2 with status := .blocked } "escalate_to" ag
  | none => st2

def applyOnFail (st1 : RunState) (failedId : String) (conf : OnFail) : RunState :=
  if conf.retryStep.isNone && conf.escalateTo.isNone then
    { applyEscalate (applyRetryStep st1 failedId conf) conf with status := .blocked }
  else applyEscalate (applyRetryStep st1 failedId conf) conf

/-- Modelled from the spec: on retry exhaustion the step is marked failed
and `onFail` is applied — a rewind when `retryStep` is present, an
escalation when `escalateTo` is present, and a blocked run when neither
is. -/
def failStepSemantics (st : RunState) (failedId : String) : RunState :=
  match findStep (updStep st failedId (setStepStatus .failed)) failedId with
  | none => updStep st failedId (setStepStatus .failed)
  | some fs =>
    match fs.onFail with
    | none => { updStep st failedId (setStepStatus .failed) with status := RunStatus.blocked }
    | some conf => applyOnFail (updStep st failedId (setStepStatus .failed)) failedId conf

/-! ## `claim(agentId)` -/

structure ClaimedWork where
  stepId : String
  renderedInput : String
  expects : String
deriving DecidableEq

inductive ClaimOnceRes
  | nothing
  | work (w : ClaimedWork)
  | advanced
deriving DecidableEq

/-- Modelled from the spec: one claim probe.  A pending step of the agent
is selected; a single step starts running and work is returned; a loop
step either claims the lowest-index pending story or — with none left —
marks itself done and advances the pipeline (`advanced`). -/
def claimOnce (env : Env) (st : RunState) (agentId : String) : RunState × ClaimOnceRes :=
  if st.status = RunStatus.running then
    match selectPendingStep st agentId with
    | none => (st, .nothing)
    | some step =>
      match step.type with
      | .single =>
        let st1 := updStep st step.defId (setStepStatus .running)
        (st1, .work { stepId := step.defId
                      renderedInput := render (buildVars env st1) step.input
                      expects := step.expects })
      | .loop =>
        match selectStory st with
        | none =>
          let st1 := updStep st step.defId (setStepStatus .done)
          (advancePipeline st1, .advanced)
        | some sty =>
          let st1 := updStory st sty.storyId (setStoryStatus .running)
          let st2 := updStep st1 step.defId (setStepRunningOn sty.storyId)
          (st2, .work { stepId := step.defId
                        renderedInput := render (buildVars env st2) step.input
                        expects := step.expects })
  else (st, .nothing)

/-- Modelled from the spec: `claim` probes once and, when the probe
transitioned an empty loop step to done and advanced the pipeline,
recurses at most once for the same agent.  The final `Nat` is a ghost
counter of the recursive probes taken. -/
def claimStep (env : Env) (st : RunState) (agentId : String) :
    RunState × Option ClaimedWork × Nat :=
  match claimOnce env st agentId with
  | (st1, .work w) => (st1, some w, 0)
  | (st1, .nothing) => (st1, none, 0)
  | (st1, .advanced) =>
    match claimOnce env st1 agentId with
    | (st2, .work w) => (st2, some w, 1)
    | (st2, .nothing) => (st2, none, 1)
    | (st2, .advanced) => (st2, none, 1)

/-! ## `complete(stepId, output)` -/

inductive EngErr
  | notFound
  | invalidState
  | parseError
deriving DecidableEq

/-- Result of a `complete`: the appended (or, for an idempotent repeat,
the originally recorded) `StepResult` when one is involved. -/
inductive Outcome
  | ok (r : Option StepResult)
  | err (e : EngErr)
deriving DecidableEq

/-- Detection of a verify-each completion: some loop step of the run is
`running` with `verifyEach` and its `verifyStep` naming this step. -/
def loopOwner (st : RunState) (defId : String) : Option StepInst :=
  st.steps.find? (fun ls =>
    ls.type = StepType.loop && ls.status = StepStatus.running &&
      (match ls.loop with
       | some lc => lc.verifyEach && lc.verifyStep = some defId
       | none => false))

/-- Insert parsed stories in payload order; `storyIndex` continues from
the rows already present; new rows are pending with the default retry
budget. -/
def insertStories (st : RunState) (ps : List ParsedStory) : RunState :=
  let base := st.stories.length
  { st with stories := st.stories ++ ps.enum.map (fun e =>
      { storyIndex := base + e.1
        storyId := e.2.id
        title := e.2.title
        description := e.2.description
        acceptanceCriteria := e.2.acceptanceCriteria : Story }) }

def mkRes (step : StepInst) (output : String) (d : ResStatus) : StepResult :=
  { stepId := step.defId, agentId := step.agentId, output := output, status := d }

/-- A loop step that is not awaiting verification: back to pending while
stories remain, else done and the pipeline advances. -/
def loopAdvance (st : RunState) (step : StepInst) : RunState × Outcome :=
  if hasPendingStory st then
    (updStep st step.defId (setStepStatus .pending), .ok none)
  else
    (advancePipeline (updStep st step.defId (setStepStatus .done)), .ok none)

/-- The dispatch of a `complete` on a running step after parsing, context
merge and story insertion (`st2`); `st` is the untouched pre-transaction
state, returned verbatim on an error. -/
def completeDispatch (st st2 : RunState) (step : StepInst) (output : String)
    (po : ParsedOutput) : RunState × Outcome :=
  match loopOwner st2 step.defId with
        | some ls =>
          -- verify step completion triggered by a loop step's verify-each
          match po.status with
          | .done =>
            let st3 := ctxDel st2 "verify_feedback"
            if hasPendingStory st3 then
              let st4 := updStep st3 ls.defId (setStepStatus .pending)
              (updStep st4 step.defId (setStepStatus .waiting), .ok none)
            else
              let st4 := updStep st3 ls.defId (setStepStatus .done)
              let st5 := updStep st4 step.defId (setStepStatus .done)
              let res := mkRes step output .done
              (advancePipeline (appendResult st5 res), .ok (some res))
          | .retry =>
            match st2.lastDoneStory with
            | none => (st, .err .invalidState)
            | some sid =>
              match findStory st2 sid with
              | none => (st, .err .notFound)
              | some sty =>
                let rc := sty.retryCount + 1
                if rc < sty.maxRetries then
                  let stA := updStory st2 sid (setStoryRetry .pending rc)
                  let stB := ctxSet stA "verify_feedback" (po.verifyFeedback.getD "")
                  let stC := updStep stB ls.defId (setStepStatus .pending)
                  (updStep stC step.defId (setStepStatus .waiting), .ok none)
                else
                  let stA := updStory st2 sid (setStoryRetry .failed rc)
                  (failStepSemantics stA ls.defId, .ok none)
          | .blocked => ({ st2 with status := .blocked }, .ok none)
        | none =>
          match step.type, step.currentStoryId with
          | .loop, some sid =>
            -- loop step completing one story iteration
            let stA := updStory st2 sid (setStoryDone output)
            let stB := updStep stA step.defId clearCurrentStory
            let stC := { stB with lastDoneStory := some sid }
            match step.loop with
            | some lc =>
              if lc.verifyEach then
                match lc.verifyStep with
                | some vid =>
                  let stD := updStep stC vid (setStepStatus .pending)
                  (updStep stD step.defId (setStepStatus .running), .ok none)
                | none => loopAdvance stC step
              else loopAdvance stC step
            | none => loopAdvance stC step
          | _, _ =>
            -- single step (or a loop step with no story in flight)
            let res := mkRes step output po.status
            let stA := appendResult st2 res
            let stB := updStep stA step.defId (setStepStatus .done)
            (advancePipeline stB, .ok (some res))

/-- Modelled from the spec: `complete(stepId, output)`.  A repeated
`complete` on a done step is the idempotent no-op returning the recorded
`StepResult`; any other non-running step raises `InvalidState` without
mutation.  Otherwise the output is parsed; an invalid `STORIES_JSON`
payload is a `ParseError` that fails the step with the error as its step
result.  The context is merged, parsed stories are inserted, and the
dispatch follows the step kind: verify-each completion, loop-story
completion, or single step.  `jsonOf` abstracts `JSON.parse`. -/
def completeStep (jsonOf : String → Option Json) (st : RunState) (stepId : String)
    (output : String) : RunState × Outcome :=
  match findStep st stepId with
  | none => (st, .err .notFound)
  | some step =>
    if step.status = StepStatus.done then
      match resultFor st stepId with
      | some r => (st, .ok (some r))
      | none => (st, .err .invalidState)
    else if step.status ≠ StepStatus.running then (st, .err .invalidState)
    else
      let po := parseOutput output
      let parsedStories : Option (Option (List ParsedStory)) :=
        match po.storiesText with
        | none => some none
        | some txt =>
          match jsonOf txt >>= validateStories with
          | none => none
          | some ps => some (some ps)
      match parsedStories with
      | none =>
        let stF := updStep st step.defId (setStepStatus .failed)
        (appendResult stF (mkRes step "ParseError: invalid STORIES_JSON" .retry),
          .err .parseError)
      | some storiesOpt =>
        let st1 := mergeCtx st po.kv
        let st2 := match storiesOpt with
          | some ps => insertStories st1 ps
          | none => st1
        completeDispatch st st2 step output po

/-! ## Gateway client (`src/installer/gateway-api.ts`)

The `fetch` call is abstracted as its outcome: either the request (or a
body read) threw — the `catch` branch — or a response arrived with its
HTTP `ok` flag, status code, text, and the result of `response.json()`
(`Except`: a thrown JSON parse lands in the same `catch`).  Only the
fields the client reads are retained from the parsed envelope.  The
functions are total and take no engine state: the translation of "never
throws and does not mutate core run/step/story state". -/

structure CronJobRef where
  id : String
  name : String
deriving DecidableEq

structure Envelope where
  ok : Bool
  errMsg : Option String := none
  resultId : Option String := none
  resultJobs : Option (List CronJobRef) := none
  topJobs : Option (List CronJobRef) := none
deriving DecidableEq

inductive FetchOutcome
  | netFail (err : String)
  | resp (httpOk : Bool) (status : Nat) (text : String) (body : Except String Envelope)

structure CreateCronResult where
  ok : Bool
  error : Option String := none
  id : Option String := none
deriving DecidableEq

structure ListCronResult where
  ok : Bool
  jobs : Option (List CronJobRef) := none
  error : Option String := none
deriving DecidableEq

def createCronJob (f : FetchOutcome) : CreateCronResult :=
  match f with
  | .netFail e => { ok := false, error := some ("Failed to call gateway: " ++ e) }
  | .resp httpOk status text body =>
    if !httpOk then
      { ok := false, error := some ("Gateway returned " ++ natStr status ++ ": " ++ text) }
    else
      match body with
      | .error e => { ok := false, error := some ("Failed to call gateway: " ++ e) }
      | .ok env =>
        if !env.ok then { ok := false, error := some (env.errMsg.getD "Unknown error") }
        else { ok := true, id := env.resultId }

def listCronJobs (f : FetchOutcome) : ListCronResult :=
  match f with
  | .netFail e => { ok := false, error := some ("Failed to call gateway: " ++ e) }
  | .resp httpOk status _text body =>
    if !httpOk then
      { ok := false, error := some ("Gateway returned " ++ natStr status) }
    else
      match body with
      | .error e => { ok := false, error := some ("Failed to call gateway: " ++ e) }
      | .ok env =>
        if !env.ok then { ok := false, error := some (env.errMsg.getD "Unknown error") }
        else { ok := true, jobs := some ((env.resultJobs.getD (env.topJobs.getD []))) }

structure EnsureCronResult where
  ok : Bool
  created : Bool
  error : Option String := none
deriving DecidableEq

/-- `ensureOrchestratorCron`, with the two gateway round trips supplied
as oracles.  The returned `Bool` is a ghost flag recording whether the
`add` request was issued at all. -/
def ensureOrchestratorCron (listF createF : FetchOutcome) : EnsureCronResult × Bool :=
  let lr := listCronJobs listF
  if !lr.ok then ({ ok := false, created := false, error := lr.error }, false)
  else
    match (lr.jobs.getD []).find? (fun j => j.name = "antfarm-orchestrator") with
    | some _ => ({ ok := true, created := false }, false)
    | none =>
      let cr := createCronJob createF
      if !cr.ok then ({ ok := false, created := false, error := cr.error }, true)
      else ({ ok := true, created := true }, true)

/-! ## Row-update lemmas -/

section RowLemmas

variable {α β : Type} {key : α → String} {f : α → α} {id id' : String} {l : List α}

theorem updFirst_map_key (hf : ∀ a, key (f a) = key a) (l : List α) :
    (updFirst key id f l).map key = l.map key := by
  induction l with
  | nil => rfl
  | cons a rest ih =>
    by_cases h : key a = id <;> simp [updFirst, h, hf, ih]

theorem updFirst_length (l : List α) :
    (updFirst key id f l).length = l.length := by
  induction l with
  | nil => rfl
  | cons a rest ih =>
    by_cases h : key a = id <;> simp [updFirst, h, ih]

theorem find?_updFirst_self (hf : ∀ a, key (f a) = key a) (l : List α) :
    (updFirst key id f l).find? (fun a => key a = id) =
      (l.find? (fun a => key a = id)).map f := by
  induction l with
  | nil => rfl
  | cons a rest ih =>
    by_cases h : key a = id
    · simp [updFirst, h, List.find?_cons, hf]
    · simp [updFirst, h, List.find?_cons, ih]

theorem find?_updFirst_ne (hf : ∀ a, key (f a) = key a) (hne : id' ≠ id) (l : List α) :
    (updFirst key id f l).find? (fun a => key a = id') =
      l.find? (fun a => key a = id') := by
  induction l with
  | nil => rfl
  | cons a rest ih =>
    by_cases h : key a = id
    · have hfa : ¬ (key (f a) = id') := by rw [hf, h]; exact fun hc => hne hc.symm
      have ha : ¬ (key a = id') := by rw [h]; exact fun hc => hne hc.symm
      rw [show updFirst key id f (a :: rest) = f a :: rest from by simp [updFirst, h]]
      rw [List.find?_cons_of_neg _ (by simpa using hfa),
        List.find?_cons_of_neg _ (by simpa using ha)]
    · rw [show updFirst key id f (a :: rest) = a :: updFirst key id f rest from by
        simp [updFirst, h]]
      by_cases h' : key a = id'
      · rw [List.find?_cons_of_pos _ (by simpa using h'),
          List.find?_cons_of_pos _ (by simpa using h')]
      · rw [List.find?_cons_of_neg _ (by simpa using h'),
          List.find?_cons_of_neg _ (by simpa using h')]
        exact ih

theorem find?_updFirst_congr (p : α → Bool) (g : α → β)
    (hp : ∀ a, p (f a) = p a) (hg : ∀ a, g (f a) = g a) (l : List α) :
    ((updFirst key id f l).find? p).map g = (l.find? p).map g := by
  induction l with
  | nil => rfl
  | cons a rest ih =>
    by_cases h : key a = id
    · by_cases hpa : p a
      · simp [updFirst, h, List.find?_cons, hpa, hp, hg]
      · simp [updFirst, h, List.find?_cons, hpa, hp]
    · by_cases hpa : p a
      · simp [updFirst, h, List.find?_cons, hpa]
      · simp [updFirst, h, List.find?_cons, hpa, ih]

theorem mem_updFirst_of_find {a₀ : α} (hfind : l.find? (fun a => key a = id) = some a₀) :
    ∀ s ∈ updFirst key id f l, s ∈ l ∨ s = f a₀ := by
  induction l with
  | nil => simp [updFirst]
  | cons a rest ih =>
    by_cases h : key a = id
    · rw [List.find?_cons_of_pos _ (by simpa using h)] at hfind
      simp only [Option.some_inj] at hfind
      subst hfind
      intro s hs
      simp only [updFirst, if_pos h] at hs
      rcases List.mem_cons.mp hs with h1 | h1
      · right; exact h1
      · left; exact List.mem_cons_of_mem _ h1
    · rw [List.find?_cons_of_neg _ (by simpa using h)] at hfind
      intro s hs
      simp only [updFirst, if_neg h] at hs
      rcases List.mem_cons.mp hs with h1 | h1
      · left; simp [h1]
      · rcases ih hfind s h1 with h2 | h2
        · left; exact List.mem_cons_of_mem _ h2
        · right; exact h2

theorem updFirst_of_find_none (hfind : l.find? (fun a => key a = id) = none) :
    updFirst key id f l = l := by
  induction l with
  | nil => rfl
  | cons a rest ih =>
    by_cases h : key a = id
    · rw [List.find?_cons_of_pos _ (by simpa using h)] at hfind
      cases hfind
    · rw [List.find?_cons_of_neg _ (by simpa using h)] at hfind
      simp [updFirst, h, ih hfind]

theorem find?_eq_of_mem_nodup (hnd : (l.map key).Nodup) {a : α}
    (ha : a ∈ l) (hk : key a = id) :
    l.find? (fun x => key x = id) = some a := by
  induction l with
  | nil => cases ha
  | cons b rest ih =>
    simp only [List.map_cons, List.nodup_cons] at hnd
    rcases List.mem_cons.mp ha with h1 | h1
    · subst h1
      exact List.find?_cons_of_pos _ (by simpa using hk)
    · by_cases hb : key b = id
      · exfalso
        apply hnd.1
        rw [hb, ← hk]
        exact List.mem_map_of_mem key h1
      · rw [List.find?_cons_of_neg _ (by simpa using hb)]
        exact ih hnd.2 h1

end RowLemmas

theorem minByStoryIdx_mem {l : List Story} {s : Story}
    (h : minByStoryIdx l = some s) : s ∈ l := by
  induction l generalizing s with
  | nil => cases h
  | cons a rest ih =>
    rw [minByStoryIdx] at h
    match hr : minByStoryIdx rest with
    | none => rw [hr] at h; simp at h; simp [h]
    | some t =>
      rw [hr] at h
      simp only at h
      split at h
      · simp at h; simp [h]
      · simp at h
        exact List.mem_cons_of_mem _ (h ▸ ih hr)

theorem minByStepIdx_mem {l : List StepInst} {s : StepInst}
    (h : minByStepIdx l = some s) : s ∈ l := by
  induction l generalizing s with
  | nil => cases h
  | cons a rest ih =>
    rw [minByStepIdx] at h
    match hr : minByStepIdx rest with
    | none => rw [hr] at h; simp at h; simp [h]
    | some t =>
      rw [hr] at h
      simp only at h
      split at h
      · simp at h; simp [h]
      · simp at h
        exact List.mem_cons_of_mem _ (h ▸ ih hr)

theorem minByStepIdx_none {l : List StepInst} :
    minByStepIdx l = none ↔ l = [] := by
  cases l with
  | nil => simp [minByStepIdx]
  | cons a rest =>
    simp only [minByStepIdx]
    constructor
    · intro h
      match hr : minByStepIdx rest with
      | none => rw [hr] at h; cases h
      | some t => rw [hr] at h; simp only at h; split at h <;> cases h
    · intro h; cases h

/-! ## Gateway theorems -/

/-- The three failure sources of a gateway call: the request itself threw
(or the body was not JSON), the HTTP response was non-ok, or the envelope
carried `ok: false`. -/
def GatewayFailed : FetchOutcome → Prop
  | .netFail _ => True
  | .resp httpOk _ _ body =>
    httpOk = false ∨ (∃ e, body = .error e) ∨ (∃ env, body = .ok env ∧ env.ok = false)

/-- C9: `createCronJob` and `listCronJobs` are total (never throw) and
return `ok = false` together with an error message exactly when the
request fails, the HTTP response is non-ok, or the envelope has
`ok = false`; their `ok`/`error` outputs depend on the parsed envelope
only through its `ok` flag and `error.message` field.  They take no
engine state, so they mutate none. -/
theorem gateway_fail_closed_envelope :
    (∀ f : FetchOutcome,
      ((createCronJob f).ok = false ↔ GatewayFailed f) ∧
      ((createCronJob f).ok = false → ((createCronJob f).error).isSome) ∧
      ((listCronJobs f).ok = false ↔ GatewayFailed f) ∧
      ((listCronJobs f).ok = false → ((listCronJobs f).error).isSome)) ∧
    (∀ (hok : Bool) (s : Nat) (t : String) (e₁ e₂ : Envelope),
      e₁.ok = e₂.ok → e₁.errMsg = e₂.errMsg →
      (createCronJob (.resp hok s t (.ok e₁))).ok = (createCronJob (.resp hok s t (.ok e₂))).ok ∧
      (createCronJob (.resp hok s t (.ok e₁))).error =
        (createCronJob (.resp hok s t (.ok e₂))).error ∧
      (listCronJobs (.resp hok s t (.ok e₁))).ok = (listCronJobs (.resp hok s t (.ok e₂))).ok ∧
      (listCronJobs (.resp hok s t (.ok e₁))).error =
        (listCronJobs (.resp hok s t (.ok e₂))).error) := by
  constructor
  · intro f
    match f with
    | .netFail e =>
      simp [createCronJob, listCronJobs, GatewayFailed]
    | .resp httpOk status text body =>
      cases httpOk
      · simp [createCronJob, listCronJobs, GatewayFailed]
      · match body with
        | .error e =>
          simp [createCronJob, listCronJobs, GatewayFailed]
        | .ok env =>
          by_cases h : env.ok
          · simp [createCronJob, listCronJobs, GatewayFailed, h]
          · simp only [Bool.not_eq_true] at h
            simp [createCronJob, listCronJobs, GatewayFailed, h]
  · intro hok s t e₁ e₂ hOk hMsg
    cases hok
    · simp [createCronJob, listCronJobs]
    · by_cases h : e₁.ok
      · simp [createCronJob, listCronJobs, h, ← hOk]
      · simp only [Bool.not_eq_true] at h
        simp [createCronJob, listCronJobs, h, ← hOk, hMsg]

/-- Witness for C9 at concrete inputs: a thrown request reports an error
without ok, and two envelopes agreeing on `ok` and `error.message` but
differing elsewhere produce identical `ok`/`error` outputs. -/
theorem gateway_fail_closed_envelope_witness :
    ((createCronJob (.netFail "boom")).ok = false ∧
      ((createCronJob (.netFail "boom")).error).isSome) ∧
    (createCronJob (.resp true 200 "" (.ok { ok := false, resultId := some "a" }))).error =
      (createCronJob (.resp true 200 "" (.ok { ok := false, resultId := some "b" }))).error := by
  refine ⟨⟨?_, ?_⟩, ?_⟩
  · exact ((gateway_fail_closed_envelope.1 (.netFail "boom")).1).mpr trivial
  · exact (gateway_fail_closed_envelope.1 (.netFail "boom")).2.1
      (((gateway_fail_closed_envelope.1 (.netFail "boom")).1).mpr trivial)
  · exact (gateway_fail_closed_envelope.2 true 200 ""
      { ok := false, resultId := some "a" } { ok := false, resultId := some "b" }
      rfl rfl).2.1

/-- C10: `ensureOrchestratorCron` is idempotent: a successful listing
that already contains a job named `antfarm-orchestrator` yields
`{ ok := true, created := false }` with no `add` request issued, and a
failed listing yields `{ ok := false, created := false }` carrying the
listing error, likewise without attempting creation. -/
theorem ensure_orchestrator_cron_idempotent :
    ∀ listF createF : FetchOutcome,
      (∀ jobs, (listCronJobs listF).ok = true → (listCronJobs listF).jobs = some jobs →
        (∃ j ∈ jobs, j.name = "antfarm-orchestrator") →
        ensureOrchestratorCron listF createF = ({ ok := true, created := false }, false)) ∧
      ((listCronJobs listF).ok = false →
        ensureOrchestratorCron listF createF =
          ({ ok := false, created := false, error := (listCronJobs listF).error }, false)) := by
  intro listF createF
  constructor
  · intro jobs hok hjobs hmem
    have hfind : jobs.find? (fun j => j.name = "antfarm-orchestrator") ≠ none := by
      rw [← Option.isSome_iff_ne_none, List.find?_isSome]
      obtain ⟨j, hj, hname⟩ := hmem
      exact ⟨j, hj, by simpa using hname⟩
    match hf : jobs.find? (fun j => j.name = "antfarm-orchestrator") with
    | none => exact absurd hf hfind
    | some j =>
      simp [ensureOrchestratorCron, hok, hjobs, hf]
  · intro hnok
    simp [ensureOrchestratorCron, hnok]

/-- Witness for C10 at concrete inputs: an existing orchestrator job
short-circuits creation, and a non-ok listing propagates its error. -/
theorem ensure_orchestrator_cron_idempotent_witness :
    ensureOrchestratorCron
        (.resp true 200 "" (.ok { ok := true, resultJobs := some [⟨"1", "antfarm-orchestrator"⟩] }))
        (.netFail "unused") = ({ ok := true, created := false }, false) ∧
    ensureOrchestratorCron (.resp false 500 "" (.error "nope")) (.netFail "unused") =
      ({ ok := false, created := false, error := some "Gateway returned 500" }, false) := by
  constructor
  · exact (ensure_orchestrator_cron_idempotent
      (.resp true 200 "" (.ok { ok := true, resultJobs := some [⟨"1", "antfarm-orchestrator"⟩] }))
      (.netFail "unused")).1 [⟨"1", "antfarm-orchestrator"⟩] rfl rfl
      ⟨⟨"1", "antfarm-orchestrator"⟩, by simp⟩
  · exact (ensure_orchestrator_cron_idempotent
      (.resp false 500 "" (.error "nope")) (.netFail "unused")).2 rfl

/-! ## `complete` idempotence and InvalidState -/

/-- C2: spec-modelled — `complete` on a step already `done` is a no-op on
the whole stored state (run, steps, stories, context, step results) and
returns the `StepResult` originally recorded for the step. -/
theorem complete_idempotent_on_done :
    ∀ (jsonOf : String → Option Json) (st : RunState) (stepId out : String)
      (step : StepInst) (r : StepResult),
      findStep st stepId = some step →
      step.status = StepStatus.done →
      resultFor st stepId = some r →
      completeStep jsonOf st stepId out = (st, .ok (some r)) := by
  intro jsonOf st stepId out step r hfind hdone hres
  unfold completeStep
  rw [hfind]
  simp [hdone, hres]

/-- Witness state for C2: a done step with its recorded result. -/
def exC2res : StepResult :=
  { stepId := "s1", agentId := "a", output := "first", status := .done }

def exC2 : RunState :=
  { steps := [{ defId := "s1", agentId := "a", stepIndex := 0, status := .done }],
    stepResults := [exC2res] }

/-- Witness for C2: the concrete done step returns its original result
and the state verbatim. -/
theorem complete_idempotent_on_done_witness :
    completeStep (fun _ => none) exC2 "s1" "second attempt" = (exC2, .ok (some exC2res)) :=
  complete_idempotent_on_done (fun _ => none) exC2 "s1" "second attempt"
    { defId := "s1", agentId := "a", stepIndex := 0, status := .done } exC2res rfl rfl rfl

/-- C3 (amended): spec-modelled — `complete` on a step that is neither
`running` nor `done` raises `InvalidState`, appends no `StepResult` and
leaves all stored state unchanged.  The `done` case is excluded: there
`complete` is the idempotent no-op of §4.6. -/
theorem complete_invalid_state :
    ∀ (jsonOf : String → Option Json) (st : RunState) (stepId out : String)
      (step : StepInst),
      findStep st stepId = some step →
      step.status ≠ StepStatus.running →
      step.status ≠ StepStatus.done →
      completeStep jsonOf st stepId out = (st, .err .invalidState) := by
  intro jsonOf st stepId out step hfind hrun hdone
  unfold completeStep
  rw [hfind]
  simp [hrun, hdone]

/-- Witness state for C3: a waiting step. -/
def exC3 : RunState :=
  { steps := [{ defId := "w1", agentId := "a", stepIndex := 0, status := .waiting }] }

/-- Witness for C3 (amended): completing a waiting step raises
`InvalidState` and changes nothing. -/
theorem complete_invalid_state_witness :
    completeStep (fun _ => none) exC3 "w1" "out" = (exC3, .err .invalidState) :=
  complete_invalid_state (fun _ => none) exC3 "w1" "out"
    { defId := "w1", agentId := "a", stepIndex := 0, status := .waiting }
    rfl (by decide) (by decide)

/-- Counterexample state for C3 as stated: a done step with a recorded
result. -/
def exC3done : RunState :=
  { steps := [{ defId := "d1", agentId := "a", stepIndex := 0, status := .done }],
    stepResults := [{ stepId := "d1", agentId := "a", output := "orig", status := .done }] }

/-- Counterexample to C3 as stated: a `done` step is not `running`, yet
`complete` does not raise `InvalidState` — it returns the recorded
result (the idempotent no-op required by §4.6/§8.5). -/
theorem complete_invalid_state_counterexample :
    (findStep exC3done "d1").map (fun s => s.status) = some StepStatus.done ∧
    (completeStep (fun _ => none) exC3done "d1" "out").2 ≠ Outcome.err .invalidState := by
  constructor
  · rfl
  · decide

/-! ## STORIES_JSON span extraction -/

theorem collectSpan_eq_takeWhile (lines : List (List Char)) :
    collectSpan lines = lines.takeWhile (fun l => !isKeyLine l) := by
  induction lines with
  | nil => rfl
  | cons l rest ih =>
    by_cases h : isKeyLine l
    · simp [collectSpan, h, List.takeWhile_cons, ih]
    · simp [collectSpan, h, List.takeWhile_cons, ih]

theorem extractAfter_of_no_marker {marker : List Char} {lines : List (List Char)}
    (h : ∀ l ∈ lines, pfxOf marker l = false) :
    extractAfter marker lines = none := by
  induction lines with
  | nil => rfl
  | cons l rest ih =>
    have hl := h l (List.mem_cons_self l rest)
    simp only [extractAfter, hl, Bool.false_eq_true, if_false]
    exact ih (fun l' hl' => h l' (List.mem_cons_of_mem _ hl'))

/-- C5: spec-modelled — when a `STORIES_JSON:` marker line is present,
the text handed to the JSON parser is exactly the remainder of the marker
line after the marker, concatenated (newline-joined) with every
subsequent line up to, exclusively, the first line matching
`^[A-Z_][A-Z0-9_]*:\s`, or to end-of-output when no such line follows;
lines with interior colons that fail that anchored pattern do not end the
span.  Without a marker line nothing is extracted. -/
theorem stories_span_extraction :
    ∀ (pre post : List (List Char)) (mline : List Char),
      (∀ l ∈ pre, pfxOf storiesMarker l = false) →
      pfxOf storiesMarker mline = true →
      extractAfter storiesMarker (pre ++ mline :: post) =
        some (joinLines
          (mline.drop storiesMarker.length :: post.takeWhile (fun l => !isKeyLine l))) ∧
      (∀ lines : List (List Char), (∀ l ∈ lines, pfxOf storiesMarker l = false) →
        extractAfter storiesMarker lines = none) := by
  intro pre post mline hpre hmk
  constructor
  · induction pre with
    | nil =>
      simp only [List.nil_append, extractAfter, hmk, if_true]
      rw [collectSpan_eq_takeWhile]
    | cons l rest ih =>
      have hl := hpre l (List.mem_cons_self l rest)
      simp only [List.cons_append, extractAfter, hl, Bool.false_eq_true, if_false]
      exact ih (fun l' hl' => hpre l' (List.mem_cons_of_mem _ hl'))
  · exact fun lines h => extractAfter_of_no_marker h

/-- Witness for C5 at a concrete output: the span swallows a line whose
interior colon does not match the key pattern at line start, and stops at
the next key line. -/
theorem stories_span_extraction_witness :
    pfxOf storiesMarker "STORIES_JSON: [".data = true ∧
    extractAfter storiesMarker
        ["PLAN: ok".data, "STORIES_JSON: [".data, " \x7b\"id\": \"a\"\x7d ]".data,
          "NEXT_KEY: done".data, "tail".data] =
      some (joinLines
        (" [".data ::
          [" \x7b\"id\": \"a\"\x7d ]".data, "NEXT_KEY: done".data, "tail".data].takeWhile
            (fun l => !isKeyLine l))) := by
  constructor
  · decide
  · have h := (stories_span_extraction ["PLAN: ok".data]
      [" \x7b\"id\": \"a\"\x7d ]".data, "NEXT_KEY: done".data, "tail".data]
      "STORIES_JSON: [".data (by decide) (by decide)).1
    simpa using h

/-! ## STATUS parsing and ISSUES gating -/

theorem firstStatus_none_of_all {lines : List (List Char)}
    (h : ∀ l ∈ lines, statusOf l = none) : firstStatus lines = none := by
  induction lines with
  | nil => rfl
  | cons l rest ih =>
    have hl := h l (List.mem_cons_self l rest)
    simp only [firstStatus, hl]
    exact ih (fun l' hl' => h l' (List.mem_cons_of_mem _ hl'))

theorem firstStatus_of_first {pre post : List (List Char)} {l : List Char} {d : ResStatus}
    (hpre : ∀ l' ∈ pre, statusOf l' = none) (hl : statusOf l = some d) :
    firstStatus (pre ++ l :: post) = some d := by
  induction pre with
  | nil => simp [firstStatus, hl]
  | cons p rest ih =>
    have hp := hpre p (List.mem_cons_self p rest)
    simp only [List.cons_append, firstStatus, hp]
    exact ih (fun l' hl' => hpre l' (List.mem_cons_of_mem _ hl'))

/-- C6: spec-modelled — the parsed status is the value of the first
`STATUS: (done|retry|blocked)` line when one exists and `done` when none
does; the `ISSUES:` block surfaces as `verify_feedback` exactly when the
resulting status is `retry`, and is discarded under any other status. -/
theorem parser_status_and_issues :
    ∀ out : String,
      ((∀ l ∈ linesOf out, statusOf l = none) → (parseOutput out).status = .done) ∧
      (∀ (pre post : List (List Char)) (l : List Char) (d : ResStatus),
        linesOf out = pre ++ l :: post → (∀ l' ∈ pre, statusOf l' = none) →
        statusOf l = some d → (parseOutput out).status = d) ∧
      ((parseOutput out).status ≠ .retry → (parseOutput out).verifyFeedback = none) ∧
      ((parseOutput out).status = .retry →
        (parseOutput out).verifyFeedback =
          (extractAfter issuesMarker (linesOf out)).map String.mk) := by
  intro out
  refine ⟨?_, ?_, ?_, ?_⟩
  · intro h
    simp [parseOutput, firstStatus_none_of_all h]
  · intro pre post l d hsplit hpre hl
    simp [parseOutput, hsplit, firstStatus_of_first hpre hl]
  · intro h
    by_cases hr : (firstStatus (linesOf out)).getD .done = .retry
    · exact absurd (by simpa [parseOutput] using hr) h
    · simp [parseOutput, hr]
  · intro h
    have hr : (firstStatus (linesOf out)).getD .done = .retry := by
      simpa [parseOutput] using h
    simp [parseOutput, hr]

/-- Witness for C6 at concrete outputs: a `STATUS: done` output discards
a present `ISSUES:` block, an output without `STATUS` parses as `done`,
and a `STATUS: retry` output surfaces the block. -/
theorem parser_status_and_issues_witness :
    (parseOutput "STATUS: done\nISSUES: broken").status = .done ∧
    (parseOutput "STATUS: done\nISSUES: broken").verifyFeedback = none ∧
    extractAfter issuesMarker (linesOf "STATUS: done\nISSUES: broken") ≠ none ∧
    (parseOutput "no marker here").status = .done ∧
    (parseOutput "STATUS: retry\nISSUES: broken").verifyFeedback = some " broken" := by
  refine ⟨?_, ?_, by decide, ?_, ?_⟩
  · exact (parser_status_and_issues "STATUS: done\nISSUES: broken").2.1
      [] ["ISSUES: broken".data] "STATUS: done".data .done (by decide) (by decide) (by decide)
  · exact (parser_status_and_issues "STATUS: done\nISSUES: broken").2.2.1 (by decide)
  · exact (parser_status_and_issues "no marker here").1 (by decide)
  · have h := (parser_status_and_issues "STATUS: retry\nISSUES: broken").2.2.2 (by decide)
    simpa using h

/-! ## STORIES_JSON payload validation -/

theorem asStr_eq_some {j : Json} {s : String} : asStr j = some s ↔ j = .jstr s := by
  cases j <;> simp [asStr]

theorem mapOpt_asStr_eq_some {xs : List Json} {l : List String} :
    mapOpt asStr xs = some l ↔ xs = l.map Json.jstr := by
  induction xs generalizing l with
  | nil => cases l <;> simp [mapOpt]
  | cons a rest ih =>
    simp only [mapOpt]
    cases ha : asStr a with
    | none =>
      constructor
      · intro h
        simp at h
      · intro h
        cases l with
        | nil => simp at h
        | cons s l' =>
          simp only [List.map_cons, List.cons.injEq] at h
          rw [h.1] at ha
          simp [asStr] at ha
    | some s₀ =>
      have hj : a = .jstr s₀ := asStr_eq_some.mp ha
      constructor
      · intro h
        match hr : mapOpt asStr rest with
        | none => rw [hr] at h; cases h
        | some l' =>
          rw [hr] at h
          simp only [Option.map_some', Option.some_inj] at h
          rw [← h]
          simp [hj, ih.mp hr]
      · intro h
        cases l with
        | nil => simp at h
        | cons s l' =>
          simp only [List.map_cons, List.cons.injEq] at h
          obtain ⟨h1, h2⟩ := h
          have hs : s = s₀ := by
            rw [h1] at ha
            simpa [asStr] using ha
          rw [ih.mpr h2]
          simp [hs]

theorem asStrList_eq_some {j : Json} {l : List String} :
    asStrList j = some l ↔ j = .jarr (l.map Json.jstr) := by
  cases j <;> simp [asStrList, mapOpt_asStr_eq_some]

/-- Declarative form of a valid story element, in the spec's words. -/
def StoryObjOK (j : Json) : Prop :=
  ∃ fs i t d ac, j = .jobj fs ∧
    getField fs "id" = some (.jstr i) ∧
    getField fs "title" = some (.jstr t) ∧
    getField fs "description" = some (.jstr d) ∧
    getField fs "acceptanceCriteria" = some (.jarr (ac.map Json.jstr)) ∧ ac ≠ []

theorem bind_asStr_eq_some {o : Option Json} {s : String} :
    o >>= asStr = some s ↔ o = some (.jstr s) := by
  cases o with
  | none => simp
  | some j => simpa using asStr_eq_some

theorem bind_asStrList_eq_some {o : Option Json} {l : List String} :
    o >>= asStrList = some l ↔ o = some (.jarr (l.map Json.jstr)) := by
  cases o with
  | none => simp
  | some j => simpa using asStrList_eq_some

theorem parseStoryObj_eq_some_iff {j : Json} {p : ParsedStory} :
    parseStoryObj j = some p ↔
      ∃ fs, j = .jobj fs ∧
        getField fs "id" = some (.jstr p.id) ∧
        getField fs "title" = some (.jstr p.title) ∧
        getField fs "description" = some (.jstr p.description) ∧
        getField fs "acceptanceCriteria" =
          some (.jarr (p.acceptanceCriteria.map Json.jstr)) ∧
        p.acceptanceCriteria ≠ [] := by
  cases j with
  | jobj fs =>
    rw [parseStoryObj]
    cases h1 : getField fs "id" >>= asStr with
    | none =>
      simp only [reduceCtorEq, false_iff, not_exists, not_and]
      rintro fs' hfs hid
      obtain rfl : fs = fs' := by injection hfs
      rw [bind_asStr_eq_some.mpr hid] at h1
      cases h1
    | some i =>
      cases h2 : getField fs "title" >>= asStr with
      | none =>
        simp only [reduceCtorEq, false_iff, not_exists, not_and]
        rintro fs' hfs - hti
        obtain rfl : fs = fs' := by injection hfs
        rw [bind_asStr_eq_some.mpr hti] at h2
        cases h2
      | some t =>
        cases h3 : getField fs "description" >>= asStr with
        | none =>
          simp only [reduceCtorEq, false_iff, not_exists, not_and]
          rintro fs' hfs - - hde
          obtain rfl : fs = fs' := by injection hfs
          rw [bind_asStr_eq_some.mpr hde] at h3
          cases h3
        | some d =>
          cases h4 : getField fs "acceptanceCriteria" >>= asStrList with
          | none =>
            simp only [reduceCtorEq, false_iff, not_exists, not_and]
            rintro fs' hfs - - - hav
            obtain rfl : fs = fs' := by injection hfs
            rw [bind_asStrList_eq_some.mpr hav] at h4
            cases h4
          | some ac =>
            show (if ac = [] then none else some (⟨i, t, d, ac⟩ : ParsedStory)) = some p ↔ _
            by_cases hne : ac = []
            · rw [if_pos hne]
              simp only [reduceCtorEq, false_iff, not_exists, not_and]
              rintro fs' hfs - - - hav hnil
              obtain rfl : fs = fs' := by injection hfs
              rw [bind_asStrList_eq_some.mpr hav] at h4
              injection h4 with h4
              exact hnil (by rw [h4, hne])
            · rw [if_neg hne]
              constructor
              · intro h
                injection h with h
                refine ⟨fs, rfl, ?_, ?_, ?_, ?_, ?_⟩
                · rw [← h]; exact bind_asStr_eq_some.mp h1
                · rw [← h]; exact bind_asStr_eq_some.mp h2
                · rw [← h]; exact bind_asStr_eq_some.mp h3
                · rw [← h]; exact bind_asStrList_eq_some.mp h4
                · rw [← h]; exact hne
              · rintro ⟨fs', hfs, hid, hti, hde, hav, -⟩
                obtain rfl : fs = fs' := by injection hfs
                rw [bind_asStr_eq_some.mpr hid] at h1
                rw [bind_asStr_eq_some.mpr hti] at h2
                rw [bind_asStr_eq_some.mpr hde] at h3
                rw [bind_asStrList_eq_some.mpr hav] at h4
                injection h1 with h1
                injection h2 with h2
                injection h3 with h3
                injection h4 with h4
                rw [← h1, ← h2, ← h3, ← h4]
  | jnull => simp [parseStoryObj]
  | jbool b => simp [parseStoryObj]
  | jnum n => simp [parseStoryObj]
  | jstr s => simp [parseStoryObj]
  | jarr xs => simp [parseStoryObj]

theorem parseStoryObj_isSome_iff {j : Json} :
    (parseStoryObj j).isSome ↔ StoryObjOK j := by
  rw [Option.isSome_iff_exists]
  constructor
  · rintro ⟨p, hp⟩
    obtain ⟨fs, rfl, h1, h2, h3, h4, h5⟩ := parseStoryObj_eq_some_iff.mp hp
    exact ⟨fs, p.id, p.title, p.description, p.acceptanceCriteria, rfl, h1, h2, h3, h4, h5⟩
  · rintro ⟨fs, i, t, d, ac, rfl, h1, h2, h3, h4, h5⟩
    exact ⟨⟨i, t, d, ac⟩, parseStoryObj_eq_some_iff.mpr ⟨fs, rfl, h1, h2, h3, h4, h5⟩⟩

theorem parseStoryObj_idOf {j : Json} {p : ParsedStory}
    (h : parseStoryObj j = some p) : idOf j = some p.id := by
  obtain ⟨fs, rfl, h1, -, -, -, -⟩ := parseStoryObj_eq_some_iff.mp h
  simp [idOf, h1, asStr]

theorem mapOpt_eq_none_iff {f : α → Option β} {l : List α} :
    mapOpt f l = none ↔ ∃ a ∈ l, f a = none := by
  induction l with
  | nil => simp [mapOpt]
  | cons a rest ih =>
    simp only [mapOpt]
    cases ha : f a with
    | none => simp [ha]
    | some b =>
      cases hr : mapOpt f rest with
      | none => simp [ha, hr, ih.mp hr]
      | some bs =>
        simp only [hr, Option.map_some']
        constructor
        · intro h; cases h
        · rintro ⟨a', ha', hfa'⟩
          rcases List.mem_cons.mp ha' with h1 | h1
          · rw [h1] at hfa'; rw [hfa'] at ha; cases ha
          · have : mapOpt f rest = none := ih.mpr ⟨a', h1, hfa'⟩
            rw [this] at hr; cases hr

theorem mapOpt_forall₂ {f : α → Option β} :
    ∀ {l : List α} {bs : List β}, mapOpt f l = some bs →
      List.Forall₂ (fun a b => f a = some b) l bs := by
  intro l
  induction l with
  | nil =>
    intro bs h
    simp only [mapOpt, Option.some_inj] at h
    rw [← h]
    exact List.Forall₂.nil
  | cons a rest ih =>
    intro bs h
    simp only [mapOpt] at h
    match ha : f a with
    | none => rw [ha] at h; cases h
    | some b =>
      rw [ha] at h
      match hr : mapOpt f rest with
      | none => rw [hr] at h; cases h
      | some bs' =>
        rw [hr] at h
        simp only [Option.map_some', Option.some_inj] at h
        rw [← h]
        exact List.Forall₂.cons ha (ih hr)

theorem mapOpt_mem_isSome {f : α → Option β} {l : List α} {bs : List β}
    (h : mapOpt f l = some bs) : ∀ a ∈ l, (f a).isSome := by
  induction l generalizing bs with
  | nil => simp
  | cons a rest ih =>
    simp only [mapOpt] at h
    match ha : f a with
    | none => rw [ha] at h; cases h
    | some b =>
      rw [ha] at h
      match hr : mapOpt f rest with
      | none => rw [hr] at h; cases h
      | some bs' =>
        intro a' ha'
        rcases List.mem_cons.mp ha' with h1 | h1
        · rw [h1, ha]; rfl
        · exact ih hr a' h1

theorem map_id_of_forall₂ {xs : List Json} {ps : List ParsedStory}
    (h : List.Forall₂ (fun a b => parseStoryObj a = some b) xs ps) :
    xs.map idOf = ps.map (fun p => some p.id) := by
  induction h with
  | nil => rfl
  | cons hab _ ih => simp [parseStoryObj_idOf hab, ih]

theorem ids_of_mapOpt {xs : List Json} {ps : List ParsedStory}
    (h : mapOpt parseStoryObj xs = some ps) :
    xs.map idOf = ps.map (fun p => some p.id) :=
  map_id_of_forall₂ (mapOpt_forall₂ h)

/-- Declarative form of a valid `STORIES_JSON` payload, in the spec's
words: a JSON array of at most 20 valid story objects with no two
elements sharing an id. -/
def JsonStoriesOK (j : Json) : Prop :=
  ∃ xs, j = .jarr xs ∧ xs.length ≤ 20 ∧ (∀ e ∈ xs, StoryObjOK e) ∧ (xs.map idOf).Nodup

theorem validateStories_isSome_iff {j : Json} :
    (validateStories j).isSome ↔ JsonStoriesOK j := by
  cases j with
  | jarr xs =>
    simp only [validateStories]
    by_cases hlen : xs.length > 20
    · rw [if_pos hlen]
      simp only [Option.isSome_none, Bool.false_eq_true, false_iff, JsonStoriesOK]
      rintro ⟨xs', hx, hle, -, -⟩
      obtain rfl : xs = xs' := by injection hx
      omega
    · rw [if_neg hlen]
      match hm : mapOpt parseStoryObj xs with
      | none =>
        simp only [Option.isSome_none, Bool.false_eq_true, false_iff, JsonStoriesOK]
        rintro ⟨xs', hx, -, hall, -⟩
        obtain rfl : xs = xs' := by injection hx
        obtain ⟨e, he, hnone⟩ := mapOpt_eq_none_iff.mp hm
        have : (parseStoryObj e).isSome := parseStoryObj_isSome_iff.mpr (hall e he)
        rw [hnone] at this
        cases this
      | some ps =>
        have hids := ids_of_mapOpt hm
        have hids' : xs.map idOf = (ps.map (fun p => p.id)).map some := by
          rw [hids, List.map_map]; rfl
        show (if (List.map (fun p => p.id) ps).Nodup then some ps else none).isSome = true ↔ _
        by_cases hnd : (ps.map (fun p => p.id)).Nodup
        · rw [if_pos hnd]
          simp only [Option.isSome_some, true_iff, JsonStoriesOK]
          refine ⟨xs, rfl, by omega, ?_, ?_⟩
          · intro e he
            exact parseStoryObj_isSome_iff.mp (mapOpt_mem_isSome hm e he)
          · rw [hids']
            exact hnd.map (Option.some_injective _)
        · rw [if_neg hnd]
          simp only [Option.isSome_none, Bool.false_eq_true, false_iff, JsonStoriesOK]
          rintro ⟨xs', hx, -, -, hndx⟩
          obtain rfl : xs = xs' := by injection hx
          rw [hids'] at hndx
          exact hnd ((List.nodup_map_iff (Option.some_injective _)).mp hndx)
  | jnull => simp [validateStories, JsonStoriesOK]
  | jbool b => simp [validateStories, JsonStoriesOK]
  | jnum n => simp [validateStories, JsonStoriesOK]
  | jstr s => simp [validateStories, JsonStoriesOK]
  | jobj fs => simp [validateStories, JsonStoriesOK]

/-- Whatever the dispatch of a running-step completion does, it never
raises `ParseError`: that error arises from payload validation alone. -/
theorem completeDispatch_ne_parseError (st st2 : RunState) (step : StepInst)
    (output : String) (po : ParsedOutput) :
    (completeDispatch st st2 step output po).2 ≠ Outcome.err .parseError := by
  unfold completeDispatch
  split
  · split
    · dsimp only
      split <;> simp
    · split
      · simp
      · split
        · simp
        · dsimp only
          split <;> simp
    · simp
  · split
    · dsimp only
      split
      · split
        · split
          · simp
          · unfold loopAdvance
            split <;> simp
        · unfold loopAdvance
          split <;> simp
      · unfold loopAdvance
        split <;> simp
    · simp

/-- The payload actually handed to validation: the JSON parse of the
extracted span must produce a valid stories array. -/
def StoriesPayloadOK (o : Option Json) : Prop :=
  ∃ j, o = some j ∧ JsonStoriesOK j

/-- A story object for the 20/21 boundary, with ids of distinct lengths. -/
def boundaryStory (i : Nat) : Json :=
  .jobj [("id", .jstr (String.mk (List.replicate i 'a'))),
         ("title", .jstr "t"),
         ("description", .jstr "d"),
         ("acceptanceCriteria", .jarr [.jstr "c"])]

def boundaryStories (n : Nat) : List Json :=
  (List.range n).map boundaryStory

/-- C4: spec-modelled — completing a running step whose output carries a
`STORIES_JSON` span raises `ParseError` and fails the step if and only if
the payload is not a JSON array of at most 20 objects each carrying
string `id`/`title`/`description` and a non-empty string-array
`acceptanceCriteria`, with pairwise distinct ids; an array of exactly 20
valid unique-id stories passes validation and one of 21 does not. -/
theorem stories_json_validation :
    (∀ (jsonOf : String → Option Json) (st : RunState) (stepId out txt : String)
       (step : StepInst),
       findStep st stepId = some step → step.status = StepStatus.running →
       (parseOutput out).storiesText = some txt →
       (((completeStep jsonOf st stepId out).2 = .err .parseError ∧
         stepStatusIn (completeStep jsonOf st stepId out).1 stepId = some .failed) ↔
         ¬ StoriesPayloadOK (jsonOf txt))) ∧
    (validateStories (Json.jarr (boundaryStories 20))).isSome = true ∧
    (validateStories (Json.jarr (boundaryStories 21))).isSome = false := by
  refine ⟨?_, by decide, by decide⟩
  intro jsonOf st stepId out txt step hfind hrun htxt
  have hdef : step.defId = stepId := by
    have := List.find?_some hfind
    simpa using this
  have hndone : ¬ (step.status = StepStatus.done) := by rw [hrun]; intro h; cases h
  have hnrun : ¬ (step.status ≠ StepStatus.running) := by rw [hrun]; simp
  unfold completeStep
  split
  · rename_i heq
    rw [hfind] at heq
    cases heq
  · rename_i s heq
    rw [hfind] at heq
    injection heq with heq
    subst heq
    rw [if_neg hndone, if_neg hnrun]
    simp only [htxt]
    match hv : jsonOf txt >>= validateStories with
    | none =>
      constructor
      · rintro -
        rintro ⟨j, hj, hok⟩
        rw [hj] at hv
        have hv' : validateStories j = none := hv
        have := validateStories_isSome_iff.mpr hok
        rw [hv'] at this
        cases this
      · rintro -
        refine ⟨by trivial, ?_⟩
        rw [hdef]
        show ((updFirst (fun s => s.defId) stepId
            (setStepStatus StepStatus.failed) st.steps).find?
            (fun s => s.defId = stepId)).map (fun s => s.status) = some StepStatus.failed
        have hupd := @find?_updFirst_self StepInst (fun s => s.defId)
          (setStepStatus StepStatus.failed) stepId (fun a => rfl) st.steps
        rw [hupd]
        rw [show st.steps.find? (fun s => s.defId = stepId) = some step from hfind]
        rfl
    | some ps =>
      constructor
      · rintro ⟨habs, -⟩
        exact absurd habs (completeDispatch_ne_parseError _ _ _ _ _)
      · intro hok
        exfalso
        apply hok
        match hj : jsonOf txt with
        | none => rw [hj] at hv; cases hv
        | some j =>
          rw [hj] at hv
          have hv' : validateStories j = some ps := hv
          exact ⟨j, rfl, validateStories_isSome_iff.mp (by rw [hv']; rfl)⟩

/-- Witness state for C4: a running plan step. -/
def exC4 : RunState :=
  { steps := [{ defId := "plan", agentId := "planner", stepIndex := 0, status := .running }] }

/-- A payload with two stories sharing the id `a`. -/
def exC4dup : Json :=
  .jarr [.jobj [("id", .jstr "a"), ("title", .jstr "t"), ("description", .jstr "d"),
                ("acceptanceCriteria", .jarr [.jstr "c"])],
         .jobj [("id", .jstr "a"), ("title", .jstr "u"), ("description", .jstr "e"),
                ("acceptanceCriteria", .jarr [.jstr "k"])]]

def exC4jsonOf : String → Option Json := fun _ => some exC4dup

/-- Witness for C4: a concrete duplicate-id payload makes the concrete
plan completion fail with `ParseError` and the step become `failed`. -/
theorem stories_json_validation_witness :
    (completeStep exC4jsonOf exC4 "plan" "STORIES_JSON: dup").2 = .err .parseError ∧
    stepStatusIn (completeStep exC4jsonOf exC4 "plan" "STORIES_JSON: dup").1 "plan" =
      some .failed := by
  have h := (stories_json_validation.1 exC4jsonOf exC4 "plan" "STORIES_JSON: dup" " dup"
      { defId := "plan", agentId := "planner", stepIndex := 0, status := .running }
      rfl rfl (by decide)).mpr ?hnot
  case hnot =>
    rintro ⟨j, hj, hok⟩
    have hj2 : exC4dup = j := by injection hj
    have hsome := validateStories_isSome_iff.mpr hok
    rw [← hj2] at hsome
    have hfalse : (validateStories exC4dup).isSome = false := by decide
    rw [hfalse] at hsome
    cases hsome
  exact ⟨h.1, h.2⟩

/-! ## Claim recursion bound -/

theorem findStep_updStep (st : RunState) (id : String) (f : StepInst → StepInst)
    (hf : ∀ s, (f s).defId = s.defId) :
    findStep (updStep st id f) id = (findStep st id).map f :=
  @find?_updFirst_self StepInst (fun s => s.defId) f id hf st.steps

theorem findStep_updStep_ne (st : RunState) {id id' : String} (f : StepInst → StepInst)
    (hf : ∀ s, (f s).defId = s.defId) (hne : id' ≠ id) :
    findStep (updStep st id f) id' = findStep st id' :=
  @find?_updFirst_ne StepInst (fun s => s.defId) f id id' hf hne st.steps

theorem updStep_map_defId (st : RunState) (id : String) (f : StepInst → StepInst)
    (hf : ∀ s, (f s).defId = s.defId) :
    (updStep st id f).steps.map (fun s => s.defId) = st.steps.map (fun s => s.defId) :=
  @updFirst_map_key StepInst (fun s => s.defId) f id hf st.steps

theorem selectPendingStep_mem {st : RunState} {a : String} {step : StepInst}
    (h : selectPendingStep st a = some step) :
    step ∈ st.steps ∧ step.status = .pending ∧ step.agentId = a := by
  have hm := minByStepIdx_mem h
  have := List.mem_filter.mp hm
  refine ⟨this.1, ?_, ?_⟩
  · have h2 := this.2
    simp only [Bool.and_eq_true, decide_eq_true_eq] at h2
    exact h2.1
  · have h2 := this.2
    simp only [Bool.and_eq_true, decide_eq_true_eq] at h2
    exact h2.2

theorem findStep_of_mem_nodup {st : RunState} {s : StepInst}
    (hnd : (st.steps.map (fun x => x.defId)).Nodup) (hs : s ∈ st.steps) :
    findStep st s.defId = some s :=
  @find?_eq_of_mem_nodup StepInst (fun x => x.defId) s.defId st.steps hnd s hs rfl

/-- A done step stays done across a pipeline advancement. -/
theorem advancePipeline_done {st : RunState} {id : String} {s : StepInst}
    (hnd : (st.steps.map (fun x => x.defId)).Nodup)
    (hfind : findStep st id = some s) (hdone : s.status = .done) :
    stepStatusIn (advancePipeline st) id = some .done := by
  cases hmin : minByStepIdx (st.steps.filter (fun x => x.status = StepStatus.waiting)) with
  | none =>
    have hgoal : advancePipeline st = { st with status := RunStatus.completed } := by
      unfold advancePipeline
      rw [hmin]
    rw [hgoal]
    unfold stepStatusIn
    rw [show findStep { st with status := RunStatus.completed } id = findStep st id from rfl,
      hfind]
    simp [hdone]
  | some w =>
    have hw := minByStepIdx_mem hmin
    have hw2 := List.mem_filter.mp hw
    have hwait : w.status = .waiting := by
      have := hw2.2
      simpa using this
    have hne : id ≠ w.defId := by
      intro he
      have hfw : findStep st w.defId = some w := findStep_of_mem_nodup hnd hw2.1
      rw [← he, hfind] at hfw
      injection hfw with hfw
      rw [← hfw] at hwait
      rw [hdone] at hwait
      cases hwait
    have hgoal : advancePipeline st = updStep st w.defId (setStepStatus .pending) := by
      unfold advancePipeline
      rw [hmin]
    rw [hgoal]
    unfold stepStatusIn
    rw [findStep_updStep_ne st (setStepStatus .pending) (fun s => rfl) hne, hfind]
    simp [hdone]

/-- Any single probe of `claim` leaves a done step done. -/
theorem claimOnce_preserves_done {env : Env} {st : RunState} {a : String} {id : String}
    {s : StepInst} (hnd : (st.steps.map (fun x => x.defId)).Nodup)
    (hfind : findStep st id = some s) (hdone : s.status = .done) :
    stepStatusIn (claimOnce env st a).1 id = some .done := by
  by_cases hr : st.status = RunStatus.running
  · cases hsel : selectPendingStep st a with
    | none =>
      have hco : claimOnce env st a = (st, .nothing) := by
        unfold claimOnce
        rw [if_pos hr, hsel]
      rw [hco]
      unfold stepStatusIn
      rw [hfind]
      simp [hdone]
    | some step2 =>
      obtain ⟨hmem, hpend, -⟩ := selectPendingStep_mem hsel
      have hne : id ≠ step2.defId := by
        intro he
        have hfw : findStep st step2.defId = some step2 := findStep_of_mem_nodup hnd hmem
        rw [← he, hfind] at hfw
        injection hfw with hfw
        rw [← hfw] at hpend
        rw [hdone] at hpend
        cases hpend
      cases htype : step2.type with
      | single =>
        have hco : (claimOnce env st a).1 =
            updStep st step2.defId (setStepStatus .running) := by
          unfold claimOnce
          rw [if_pos hr, hsel]
          simp only [htype]
        rw [hco]
        unfold stepStatusIn
        rw [findStep_updStep_ne st (setStepStatus .running) (fun s => rfl) hne, hfind]
        simp [hdone]
      | loop =>
        cases hsty : selectStory st with
        | none =>
          have hco : (claimOnce env st a).1 =
              advancePipeline (updStep st step2.defId (setStepStatus .done)) := by
            unfold claimOnce
            rw [if_pos hr, hsel]
            simp only [htype, hsty]
          rw [hco]
          have hnd1 : ((updStep st step2.defId
              (setStepStatus .done)).steps.map (fun x => x.defId)).Nodup := by
            rw [updStep_map_defId st step2.defId (setStepStatus .done) (fun s => rfl)]
            exact hnd
          have hf1 : findStep (updStep st step2.defId (setStepStatus .done)) id = some s := by
            rw [findStep_updStep_ne st (setStepStatus .done) (fun s => rfl) hne, hfind]
          exact advancePipeline_done hnd1 hf1 hdone
        | some sty =>
          have hco : (claimOnce env st a).1 =
              updStep (updStory st sty.storyId (setStoryStatus .running)) step2.defId
                (setStepRunningOn sty.storyId) := by
            unfold claimOnce
            rw [if_pos hr, hsel]
            simp only [htype, hsty]
          rw [hco]
          unfold stepStatusIn
          rw [findStep_updStep_ne _ (setStepRunningOn sty.storyId) (fun s => rfl) hne]
          rw [show findStep (updStory st sty.storyId (setStoryStatus .running)) id =
              findStep st id from rfl]
          rw [hfind]
          simp [hdone]
  · have hco : claimOnce env st a = (st, .nothing) := by
      unfold claimOnce
      rw [if_neg hr]
    rw [hco]
    unfold stepStatusIn
    rw [hfind]
    simp [hdone]

/-- C7: spec-modelled — `claim` performs at most one recursive probe; when
the selected step is a loop step with no pending story, that step is
marked done, the pipeline advances, and the returned claim is computed by
exactly one further probe on the advanced state. -/
theorem claim_probe_bound :
    ∀ (env : Env) (st : RunState) (a : String),
      (claimStep env st a).2.2 ≤ 1 ∧
      (∀ step, (st.steps.map (fun x => x.defId)).Nodup →
        st.status = RunStatus.running →
        selectPendingStep st a = some step →
        step.type = .loop →
        selectStory st = none →
        (claimStep env st a).2.2 = 1 ∧
        stepStatusIn (claimStep env st a).1 step.defId = some .done ∧
        (claimStep env st a).1 =
          (claimOnce env (advancePipeline (updStep st step.defId
            (setStepStatus .done))) a).1) := by
  intro env st a
  constructor
  · unfold claimStep
    rcases hc1 : claimOnce env st a with ⟨st1, r1⟩
    cases r1 <;> simp only
    · omega
    · omega
    · rcases hc2 : claimOnce env st1 a with ⟨st2, r2⟩
      cases r2 <;> simp only <;> omega
  · intro step hnd hrun hsel htype hsty
    have hco : claimOnce env st a =
        (advancePipeline (updStep st step.defId (setStepStatus .done)), .advanced) := by
      unfold claimOnce
      rw [if_pos hrun, hsel]
      simp only [htype, hsty]
    have hfind0 : findStep st step.defId = some step :=
      findStep_of_mem_nodup hnd (selectPendingStep_mem hsel).1
    set stAdv := advancePipeline (updStep st step.defId (setStepStatus .done)) with hAdv
    have hnd1 : ((updStep st step.defId
        (setStepStatus .done)).steps.map (fun x => x.defId)).Nodup := by
      rw [updStep_map_defId st step.defId (setStepStatus .done) (fun s => rfl)]
      exact hnd
    have hfind1 : findStep (updStep st step.defId (setStepStatus .done)) step.defId =
        some (setStepStatus .done step) := by
      rw [findStep_updStep st step.defId (setStepStatus .done) (fun s => rfl), hfind0]
      rfl
    have hdone1 : stepStatusIn stAdv step.defId = some .done :=
      advancePipeline_done hnd1 hfind1 rfl
    have hndAdv : (stAdv.steps.map (fun x => x.defId)).Nodup := by
      rw [hAdv]
      cases hmin : minByStepIdx ((updStep st step.defId
          (setStepStatus .done)).steps.filter (fun x => x.status = StepStatus.waiting)) with
      | none =>
        have hgoal : advancePipeline (updStep st step.defId (setStepStatus .done)) =
            { (updStep st step.defId (setStepStatus .done)) with
              status := RunStatus.completed } := by
          unfold advancePipeline
          rw [hmin]
        rw [hgoal]
        exact hnd1
      | some w =>
        have hgoal : advancePipeline (updStep st step.defId (setStepStatus .done)) =
            updStep (updStep st step.defId (setStepStatus .done)) w.defId
              (setStepStatus .pending) := by
          unfold advancePipeline
          rw [hmin]
        rw [hgoal]
        rw [updStep_map_defId (updStep st step.defId (setStepStatus .done)) w.defId
          (setStepStatus .pending) (fun s => rfl)]
        exact hnd1
    obtain ⟨sAdv, hfindAdv, hsAdv⟩ :
        ∃ sAdv, findStep stAdv step.defId = some sAdv ∧ sAdv.status = .done := by
      unfold stepStatusIn at hdone1
      cases hfa : findStep stAdv step.defId with
      | none => rw [hfa] at hdone1; cases hdone1
      | some sA =>
        rw [hfa] at hdone1
        injection hdone1 with hdone1
        exact ⟨sA, rfl, hdone1⟩
    refine ⟨?_, ?_, ?_⟩
    · unfold claimStep
      rw [hco]
      rcases hc2 : claimOnce env stAdv a with ⟨st2, r2⟩
      cases r2 <;> simp [hc2]
    · unfold claimStep
      rw [hco]
      rcases hc2 : claimOnce env stAdv a with ⟨st2, r2⟩
      have hkeep : stepStatusIn (claimOnce env stAdv a).1 step.defId = some .done :=
        claimOnce_preserves_done hndAdv hfindAdv hsAdv
      rw [hc2] at hkeep
      cases r2 <;> simp only [hc2] <;> exact hkeep
    · unfold claimStep
      rw [hco]
      rcases hc2 : claimOnce env stAdv a with ⟨st2, r2⟩
      cases r2 <;> simp [hc2]

/-- Witness state for C7: a loop step with all stories done, followed by
a waiting step of the same agent. -/
def exC7impl : StepInst :=
  { defId := "impl", agentId := "dev", stepIndex := 0, type := .loop, status := .pending }

def exC7 : RunState :=
  { status := .running,
    steps := [exC7impl,
      { defId := "ship", agentId := "dev", stepIndex := 1, status := .waiting }],
    stories := [{ storyIndex := 0, storyId := "US-1", title := "t", description := "d",
                  acceptanceCriteria := ["c"], status := .done }] }

def exC7env : Env := { fs := fun _ => none, agentWorkspace := fun _ => none }

/-- Witness for C7: at the concrete state the claim takes exactly one
recursive probe and leaves the exhausted loop step done. -/
theorem claim_probe_bound_witness :
    (claimStep exC7env exC7 "dev").2.2 = 1 ∧
    stepStatusIn (claimStep exC7env exC7 "dev").1 "impl" = some .done := by
  have h := (claim_probe_bound exC7env exC7 "dev").2 exC7impl
    (by decide) rfl (by decide) rfl (by decide)
  exact ⟨h.1, h.2.1⟩

/-! ## Progress injection -/

theorem resolve_eq (env : Env) (st : RunState) :
    resolveProgressFilePath env st =
      ((st.steps.find? (fun s => s.type = StepType.loop)).map (fun s => s.agentId)).bind
        (fun aid => (env.agentWorkspace aid).map (fun ws => ws ++ "/progress.txt")) := by
  unfold resolveProgressFilePath
  cases st.steps.find? (fun s => s.type = StepType.loop) with
  | none => rfl
  | some ls =>
    show (match env.agentWorkspace ls.agentId with
      | none => none
      | some ws => some (ws ++ "/progress.txt")) =
      (env.agentWorkspace ls.agentId).map (fun ws => ws ++ "/progress.txt")
    cases env.agentWorkspace ls.agentId with
    | none => rfl
    | some ws => rfl

theorem resolve_updStep (env : Env) (st : RunState) (id : String) (f : StepInst → StepInst)
    (hft : ∀ s, (f s).type = s.type) (hfa : ∀ s, (f s).agentId = s.agentId) :
    resolveProgressFilePath env (updStep st id f) = resolveProgressFilePath env st := by
  rw [resolve_eq, resolve_eq]
  have hc := @find?_updFirst_congr StepInst String (fun s => s.defId) f id
    (fun s => decide (s.type = StepType.loop)) (fun s => s.agentId)
    (by intro a; simp [hft]) hfa st.steps
  rw [show (updStep st id f).steps = updFirst (fun s => s.defId) id f st.steps from rfl]
  rw [hc]

theorem resolve_advance (env : Env) (st : RunState) :
    resolveProgressFilePath env (advancePipeline st) = resolveProgressFilePath env st := by
  cases hmin : minByStepIdx (st.steps.filter (fun x => x.status = StepStatus.waiting)) with
  | none =>
    have hgoal : advancePipeline st = { st with status := RunStatus.completed } := by
      unfold advancePipeline
      rw [hmin]
    rw [hgoal]
    rfl
  | some w =>
    have hgoal : advancePipeline st = updStep st w.defId (setStepStatus .pending) := by
      unfold advancePipeline
      rw [hmin]
    rw [hgoal]
    exact resolve_updStep env st w.defId (setStepStatus .pending) (fun s => rfl) (fun s => rfl)

theorem readProgress_congr {env : Env} {st1 st2 : RunState}
    (h : resolveProgressFilePath env st1 = resolveProgressFilePath env st2) :
    readProgressFile env st1 = readProgressFile env st2 := by
  unfold readProgressFile
  rw [h]

/-- In a run with stories the dynamic variables bind `progress` to the
workspace bridge's read. -/
theorem lookupVar_progress (env : Env) (st : RunState) (h : st.stories ≠ []) :
    lookupVar (buildVars env st) "progress" = some (readProgressFile env st) := by
  unfold buildVars
  rw [if_neg (by simp [List.isEmpty_iff, h])]
  unfold loopVars lookupVar
  simp [List.find?]

theorem claimOnce_work_inv {env : Env} {st : RunState} {a : String} {st1 : RunState}
    {w : ClaimedWork} (h : claimOnce env st a = (st1, .work w)) :
    ∃ (step : StepInst) (stI : RunState),
      st1 = stI ∧ w.renderedInput = render (buildVars env stI) step.input ∧
      stI.stories.length = st.stories.length ∧
      resolveProgressFilePath env stI = resolveProgressFilePath env st := by
  unfold claimOnce at h
  by_cases hr : st.status = RunStatus.running
  · rw [if_pos hr] at h
    cases hsel : selectPendingStep st a with
    | none =>
      rw [hsel] at h
      injection h with h1 h2
      cases h2
    | some step =>
      rw [hsel] at h
      cases htype : step.type with
      | single =>
        simp only [htype] at h
        injection h with h1 h2
        injection h2 with h2
        refine ⟨step, updStep st step.defId (setStepStatus .running), h1.symm, ?_, rfl, ?_⟩
        · rw [← h2]
        · exact resolve_updStep env st step.defId (setStepStatus .running)
            (fun s => rfl) (fun s => rfl)
      | loop =>
        cases hsty : selectStory st with
        | none =>
          simp only [htype, hsty] at h
          injection h with h1 h2
          cases h2
        | some sty =>
          simp only [htype, hsty] at h
          injection h with h1 h2
          injection h2 with h2
          refine ⟨step, updStep (updStory st sty.storyId (setStoryStatus .running))
            step.defId (setStepRunningOn sty.storyId), h1.symm, ?_, ?_, ?_⟩
          · rw [← h2]
          · show (updFirst (fun s => s.storyId) sty.storyId
              (setStoryStatus .running) st.stories).length = st.stories.length
            exact updFirst_length st.stories
          · rw [resolve_updStep env _ step.defId (setStepRunningOn sty.storyId)
              (fun s => rfl) (fun s => rfl)]
            rw [show resolveProgressFilePath env
              (updStory st sty.storyId (setStoryStatus .running)) =
              resolveProgressFilePath env st from rfl]
  · rw [if_neg hr] at h
    injection h with h1 h2
    cases h2

theorem claimOnce_advanced_inv {env : Env} {st : RunState} {a : String} {st1 : RunState}
    (h : claimOnce env st a = (st1, .advanced)) :
    st1.stories.length = st.stories.length ∧
    resolveProgressFilePath env st1 = resolveProgressFilePath env st := by
  unfold claimOnce at h
  by_cases hr : st.status = RunStatus.running
  · rw [if_pos hr] at h
    cases hsel : selectPendingStep st a with
    | none =>
      rw [hsel] at h
      injection h with h1 h2
      cases h2
    | some step =>
      rw [hsel] at h
      cases htype : step.type with
      | single =>
        simp only [htype] at h
        injection h with h1 h2
        cases h2
      | loop =>
        cases hsty : selectStory st with
        | none =>
          simp only [htype, hsty] at h
          injection h with h1 h2
          rw [← h1]
          constructor
          · rw [show (advancePipeline (updStep st step.defId (setStepStatus .done))).stories =
              (updStep st step.defId (setStepStatus .done)).stories from ?_]
            · rfl
            · unfold advancePipeline
              cases hmin : minByStepIdx ((updStep st step.defId
                  (setStepStatus .done)).steps.filter
                  (fun x => x.status = StepStatus.waiting)) <;> rfl
          · rw [resolve_advance, resolve_updStep env st step.defId (setStepStatus .done)
              (fun s => rfl) (fun s => rfl)]
        | some sty =>
          simp only [htype, hsty] at h
          injection h with h1 h2
          cases h2
  · rw [if_neg hr] at h
    injection h with h1 h2
    cases h2

/-- Any claim that returns work renders it against variables built on a
state with the same stories and the same resolved progress file. -/
theorem claimStep_work_vars {env : Env} {st : RunState} {a : String} {st' : RunState}
    {w : ClaimedWork} {n : Nat} (h : claimStep env st a = (st', some w, n)) :
    ∃ (step : StepInst) (stI : RunState),
      w.renderedInput = render (buildVars env stI) step.input ∧
      stI.stories.length = st.stories.length ∧
      resolveProgressFilePath env stI = resolveProgressFilePath env st := by
  unfold claimStep at h
  rcases hc1 : claimOnce env st a with ⟨st1, r1⟩
  rw [hc1] at h
  cases r1 with
  | work w0 =>
    simp only at h
    injection h with h1 h2
    injection h2 with h2 h3
    obtain ⟨step, stI, -, hr, hl, hp⟩ := claimOnce_work_inv hc1
    injection h2 with h2
    exact ⟨step, stI, by rw [← h2, hr], hl, hp⟩
  | nothing =>
    simp only at h
    injection h with h1 h2
    injection h2 with h2 h3
    cases h2
  | advanced =>
    simp only at h
    rcases hc2 : claimOnce env st1 a with ⟨st2, r2⟩
    rw [hc2] at h
    obtain ⟨hl1, hp1⟩ := claimOnce_advanced_inv hc1
    cases r2 with
    | work w0 =>
      simp only at h
      injection h with h1 h2
      injection h2 with h2 h3
      obtain ⟨step, stI, -, hr, hl, hp⟩ := claimOnce_work_inv hc2
      injection h2 with h2
      exact ⟨step, stI, by rw [← h2, hr], by rw [hl, hl1], by rw [hp, hp1]⟩
    | nothing =>
      simp only at h
      injection h with h1 h2
      injection h2 with h2 h3
      cases h2
    | advanced =>
      simp only at h
      injection h with h1 h2
      injection h2 with h2 h3
      cases h2

/-- C8: spec-modelled (workspace bridge translated from the design
document's `readProgressFile`) — in a run with stories, the `progress`
template variable of any claimed work equals the contents of
`progress.txt` in the loop-step agent's workspace when readable, and
`"(no progress yet)"` when the file is absent or unreadable. -/
theorem progress_var_injection :
    ∀ (env : Env) (st : RunState) (a : String) (ls : StepInst) (ws : String),
      st.stories ≠ [] →
      st.steps.find? (fun s => s.type = StepType.loop) = some ls →
      env.agentWorkspace ls.agentId = some ws →
      (readProgressFile env st =
        (match env.fs (ws ++ "/progress.txt") with
         | some c => c
         | none => "(no progress yet)")) ∧
      (∀ (st' : RunState) (w : ClaimedWork) (n : Nat),
        claimStep env st a = (st', some w, n) →
        ∃ (step : StepInst) (stI : RunState),
          w.renderedInput = render (buildVars env stI) step.input ∧
          lookupVar (buildVars env stI) "progress" = some (readProgressFile env st)) := by
  intro env st a ls ws hstories hls hws
  constructor
  · unfold readProgressFile resolveProgressFilePath
    rw [hls]
    show (match (match env.agentWorkspace ls.agentId with
        | none => none
        | some ws => some (ws ++ "/progress.txt")) with
      | none => "(no progress file)"
      | some p =>
        match env.fs p with
        | some content => content
        | none => "(no progress yet)") = _
    rw [hws]
  · intro st' w n h
    obtain ⟨step, stI, hr, hl, hp⟩ := claimStep_work_vars h
    have hne : stI.stories ≠ [] := by
      intro hnil
      rw [hnil] at hl
      exact hstories (List.length_eq_zero.mp hl.symm)
    refine ⟨step, stI, hr, ?_⟩
    rw [lookupVar_progress env stI hne]
    rw [readProgress_congr hp]

/-- Witness data for C8: a loop step for agent `dev`, whose workspace
holds `progress.txt` reading `hello`. -/
def exC8loop : StepInst :=
  { defId := "impl", agentId := "dev", stepIndex := 0, type := .loop, status := .pending,
    input := "\x7b\x7bprogress\x7d\x7d" }

def exC8 : RunState :=
  { status := .running,
    steps := [exC8loop],
    stories := [{ storyIndex := 0, storyId := "US-1", title := "t", description := "d",
                  acceptanceCriteria := ["c"] }] }

def exC8env : Env :=
  { fs := fun p => if p = "dev-ws/progress.txt" then some "hello" else none,
    agentWorkspace := fun aid => if aid = "dev" then some "dev-ws" else none }

def exC8work : ClaimedWork :=
  { stepId := "impl", renderedInput := "hello", expects := "" }

/-- Witness for C8: the concrete claim renders `{{progress}}` to `hello`,
and with the file absent the bridge reads `(no progress yet)`. -/
theorem progress_var_injection_witness :
    readProgressFile exC8env exC8 = "hello" ∧
    (∃ (step : StepInst) (stI : RunState),
      exC8work.renderedInput = render (buildVars exC8env stI) step.input ∧
      lookupVar (buildVars exC8env stI) "progress" =
        some (readProgressFile exC8env exC8)) ∧
    readProgressFile { fs := fun _ => none, agentWorkspace := exC8env.agentWorkspace }
      exC8 = "(no progress yet)" := by
  have h := progress_var_injection exC8env exC8 "dev" exC8loop "dev-ws"
    (by decide) rfl rfl
  have hnone := progress_var_injection
    { fs := fun _ => none, agentWorkspace := exC8env.agentWorkspace }
    exC8 "dev" exC8loop "dev-ws" (by decide) rfl rfl
  have hc : claimStep exC8env exC8 "dev" =
      ((claimStep exC8env exC8 "dev").1, some exC8work, 0) := by decide
  refine ⟨h.1.trans rfl, ?_, hnone.1.trans rfl⟩
  exact h.2 (claimStep exC8env exC8 "dev").1 exC8work 0 hc

/-! ## Verify-each retry bound and exhaustion -/

/-- The retry invariant: no story's `retryCount` exceeds its
`maxRetries`, and a story that is not failed still has retries left. -/
def RetryInv (st : RunState) : Prop :=
  ∀ s ∈ st.stories, s.retryCount ≤ s.maxRetries ∧
    (s.status ≠ StoryStatus.failed → s.retryCount < s.maxRetries)

theorem mergeCtx_steps : ∀ (kv : List (String × String)) (st : RunState),
    (mergeCtx st kv).steps = st.steps := by
  intro kv
  induction kv with
  | nil => intro st; rfl
  | cons e rest ih => intro st; exact ih (ctxSet st e.1 e.2)

theorem mergeCtx_stories : ∀ (kv : List (String × String)) (st : RunState),
    (mergeCtx st kv).stories = st.stories := by
  intro kv
  induction kv with
  | nil => intro st; rfl
  | cons e rest ih => intro st; exact ih (ctxSet st e.1 e.2)

theorem mergeCtx_lastDone : ∀ (kv : List (String × String)) (st : RunState),
    (mergeCtx st kv).lastDoneStory = st.lastDoneStory := by
  intro kv
  induction kv with
  | nil => intro st; rfl
  | cons e rest ih => intro st; exact ih (ctxSet st e.1 e.2)

theorem rewindSteps_stories (st1 : RunState) (failedId rid : String) :
    (rewindSteps st1 failedId rid).stories = st1.stories := by
  unfold rewindSteps
  split
  · rfl
  · rfl

theorem applyRetryStep_stories (st1 : RunState) (failedId : String) (conf : OnFail) :
    (applyRetryStep st1 failedId conf).stories = st1.stories := by
  unfold applyRetryStep
  cases conf.retryStep with
  | none => rfl
  | some rid => exact rewindSteps_stories st1 failedId rid

theorem applyEscalate_stories (st2 : RunState) (conf : OnFail) :
    (applyEscalate st2 conf).stories = st2.stories := by
  unfold applyEscalate
  cases conf.escalateTo with
  | none => rfl
  | some ag => rfl

theorem applyOnFail_stories (st1 : RunState) (failedId : String) (conf : OnFail) :
    (applyOnFail st1 failedId conf).stories = st1.stories := by
  unfold applyOnFail
  split
  · show (applyEscalate (applyRetryStep st1 failedId conf) conf).stories = st1.stories
    rw [applyEscalate_stories, applyRetryStep_stories]
  · rw [applyEscalate_stories, applyRetryStep_stories]

theorem failStepSemantics_stories (st : RunState) (id : String) :
    (failStepSemantics st id).stories = st.stories := by
  unfold failStepSemantics
  split
  · rfl
  · split
    · rfl
    · rw [applyOnFail_stories]
      rfl

/-- When the failed step has no `onFail`, its committed status after the
failure semantics is `failed` (and the run is blocked). -/
theorem failStepSemantics_no_onFail {st : RunState} {id : String} {fs : StepInst}
    (hfind : findStep st id = some fs) (hOnFail : fs.onFail = none) :
    stepStatusIn (failStepSemantics st id) id = some .failed := by
  have h1 : findStep (updStep st id (setStepStatus .failed)) id =
      some (setStepStatus .failed fs) := by
    rw [findStep_updStep st id (setStepStatus .failed) (fun s => rfl), hfind]
    rfl
  have hgoal : failStepSemantics st id =
      { updStep st id (setStepStatus .failed) with status := RunStatus.blocked } := by
    unfold failStepSemantics
    rw [h1]
    show (match (setStepStatus .failed fs).onFail with
      | none => { updStep st id (setStepStatus .failed) with status := RunStatus.blocked }
      | some conf =>
        applyOnFail (updStep st id (setStepStatus .failed)) id conf) = _
    rw [show (setStepStatus .failed fs).onFail = fs.onFail from rfl, hOnFail]
  rw [hgoal]
  unfold stepStatusIn
  rw [show findStep { updStep st id (setStepStatus .failed) with
      status := RunStatus.blocked } id =
    findStep (updStep st id (setStepStatus .failed)) id from rfl, h1]
  rfl

/-- Unfolding of `complete` on a running step whose output carries no
`STORIES_JSON` span. -/
theorem completeStep_dispatch {jsonOf : String → Option Json} {st : RunState}
    {stepId out : String} {step : StepInst}
    (hfind : findStep st stepId = some step) (hrun : step.status = .running)
    (hst : (parseOutput out).storiesText = none) :
    completeStep jsonOf st stepId out =
      completeDispatch st (mergeCtx st (parseOutput out).kv) step out (parseOutput out) := by
  unfold completeStep
  split
  · rename_i heq
    rw [hfind] at heq
    cases heq
  · rename_i s heq
    rw [hfind] at heq
    injection heq with heq
    subst heq
    rw [if_neg (by rw [hrun]; intro hh; cases hh), if_neg (by rw [hrun]; simp)]
    simp only [hst]

/-- C1 (amended): spec-modelled — across a verify-each `retry`
completion, no story's `retryCount` ever exceeds its `maxRetries`; in the
completion where the incremented count reaches `maxRetries`, the story
becomes `failed` and `failStep` semantics are applied to the loop step,
whose committed status is `failed` provided it carries no `onFail`
(an `onFail.retryStep` rewind instead leaves it waiting or pending, and
an escalation blocks the run — spec §4.4.4 and §8 scenario 4). -/
theorem verify_retry_bound_and_exhaustion :
    ∀ (jsonOf : String → Option Json) (st : RunState) (stepId out : String)
      (step ls : StepInst) (sid : String) (sty : Story),
      RetryInv st →
      (st.steps.map (fun x => x.defId)).Nodup →
      findStep st stepId = some step →
      step.status = .running →
      loopOwner st step.defId = some ls →
      ls.defId ≠ step.defId →
      (parseOutput out).status = .retry →
      (parseOutput out).storiesText = none →
      st.lastDoneStory = some sid →
      findStory st sid = some sty →
      sty.status = .done →
      RetryInv (completeStep jsonOf st stepId out).1 ∧
      (sty.maxRetries ≤ sty.retryCount + 1 →
        storyStatusIn (completeStep jsonOf st stepId out).1 sid = some .failed ∧
        (ls.onFail = none →
          stepStatusIn (completeStep jsonOf st stepId out).1 ls.defId = some .failed)) := by
  intro jsonOf st stepId out step ls sid sty hInv hnd hfind hrun hlo hlsne hret hstN hlast hsty hdone
  rw [completeStep_dispatch hfind hrun hstN]
  have hsteps2 : (mergeCtx st (parseOutput out).kv).steps = st.steps :=
    mergeCtx_steps (parseOutput out).kv st
  have hstories2 : (mergeCtx st (parseOutput out).kv).stories = st.stories :=
    mergeCtx_stories (parseOutput out).kv st
  have hlast2 : (mergeCtx st (parseOutput out).kv).lastDoneStory = some sid := by
    rw [mergeCtx_lastDone (parseOutput out).kv st]
    exact hlast
  have hlo2 : loopOwner (mergeCtx st (parseOutput out).kv) step.defId = some ls := by
    unfold loopOwner
    rw [hsteps2]
    exact hlo
  have hfs2 : findStory (mergeCtx st (parseOutput out).kv) sid = some sty := by
    unfold findStory
    rw [hstories2]
    exact hsty
  have hfindls : findStep st ls.defId = some ls := by
    have hmem : ls ∈ st.steps := List.mem_of_find?_eq_some hlo
    exact findStep_of_mem_nodup hnd hmem
  have hfindsty : st.stories.find? (fun s => s.storyId = sid) = some sty := hsty
  have hInvSty := hInv sty (List.mem_of_find?_eq_some hfindsty)
  have hrcLt : sty.retryCount < sty.maxRetries := by
    apply hInvSty.2
    rw [hdone]
    intro hh
    cases hh
  unfold completeDispatch
  simp only [hlo2, hret, hlast2, hfs2]
  by_cases hrc : sty.retryCount + 1 < sty.maxRetries
  · rw [if_pos hrc]
    constructor
    · intro s hs
      have hs' : s ∈ updFirst (fun x => x.storyId) sid
          (setStoryRetry .pending (sty.retryCount + 1))
          (mergeCtx st (parseOutput out).kv).stories := hs
      rw [hstories2] at hs'
      rcases mem_updFirst_of_find hfindsty s hs' with hmem | hset
      · exact hInv s hmem
      · rw [hset]
        refine ⟨?_, fun hh => ?_⟩
        · show sty.retryCount + 1 ≤ sty.maxRetries
          omega
        · show sty.retryCount + 1 < sty.maxRetries
          omega
    · intro hexh
      omega
  · rw [if_neg hrc]
    refine ⟨?_, ?_⟩
    · intro s hs
      have hs' : s ∈ (failStepSemantics (updStory (mergeCtx st (parseOutput out).kv) sid
          (setStoryRetry .failed (sty.retryCount + 1))) ls.defId).stories := hs
      rw [failStepSemantics_stories] at hs'
      have hs'' : s ∈ updFirst (fun x => x.storyId) sid
          (setStoryRetry .failed (sty.retryCount + 1))
          (mergeCtx st (parseOutput out).kv).stories := hs'
      rw [hstories2] at hs''
      rcases mem_updFirst_of_find hfindsty s hs'' with hmem | hset
      · exact hInv s hmem
      · rw [hset]
        refine ⟨?_, fun hh => ?_⟩
        · show sty.retryCount + 1 ≤ sty.maxRetries
          omega
        · exact absurd rfl hh
    · rintro -
      constructor
      · show ((failStepSemantics (updStory (mergeCtx st (parseOutput out).kv) sid
          (setStoryRetry .failed (sty.retryCount + 1))) ls.defId).stories.find?
            (fun s => s.storyId = sid)).map (fun s => s.status) = some StoryStatus.failed
        rw [failStepSemantics_stories]
        have hupd := @find?_updFirst_self Story (fun x => x.storyId)
          (setStoryRetry .failed (sty.retryCount + 1)) sid (fun a => rfl)
          (mergeCtx st (parseOutput out).kv).stories
        rw [show (updStory (mergeCtx st (parseOutput out).kv) sid
          (setStoryRetry .failed (sty.retryCount + 1))).stories =
          updFirst (fun x => x.storyId) sid (setStoryRetry .failed (sty.retryCount + 1))
            (mergeCtx st (parseOutput out).kv).stories from rfl]
        rw [hupd]
        rw [show (mergeCtx st (parseOutput out).kv).stories.find?
          (fun s => s.storyId = sid) = some sty from by rw [hstories2]; exact hfindsty]
        rfl
      · intro hOnFail
        apply failStepSemantics_no_onFail
        · show findStep (updStory (mergeCtx st (parseOutput out).kv) sid
            (setStoryRetry .failed (sty.retryCount + 1))) ls.defId = some ls
          rw [show findStep (updStory (mergeCtx st (parseOutput out).kv) sid
            (setStoryRetry .failed (sty.retryCount + 1))) ls.defId =
            (mergeCtx st (parseOutput out).kv).steps.find?
              (fun s => s.defId = ls.defId) from rfl, hsteps2]
          exact hfindls
        · exact hOnFail

/-- Counterexample data for C1 as stated: the loop step carries an
`onFail.retryStep` rewind to the plan step. -/
def exC1plan : StepInst :=
  { defId := "plan", agentId := "planner", stepIndex := 0, status := .done }

def exC1impl : StepInst :=
  { defId := "implement", agentId := "dev", stepIndex := 1, type := .loop,
    loop := some { verifyEach := true, verifyStep := some "verify" },
    status := .running, onFail := some { retryStep := some "plan" } }

def exC1verify : StepInst :=
  { defId := "verify", agentId := "ver", stepIndex := 2, status := .running }

def exC1story : Story :=
  { storyIndex := 0, storyId := "US-1", title := "t", description := "d",
    acceptanceCriteria := ["c"], status := .done, retryCount := 1, maxRetries := 2 }

def exC1 : RunState :=
  { status := .running, steps := [exC1plan, exC1impl, exC1verify],
    stories := [exC1story], lastDoneStory := some "US-1" }

def exC1out : String := "STATUS: retry\nISSUES: nope"

/-- Counterexample to C1 as stated: a verify-each `retry` that exhausts
the story's retries while the loop step has `onFail.retryStep` — the
story is `failed` but the committed loop-step status is `waiting` (the
§4.4.4 rewind), not `failed`. -/
theorem verify_retry_exhaustion_counterexample :
    (parseOutput exC1out).status = .retry ∧
    exC1story.retryCount + 1 = exC1story.maxRetries ∧
    storyStatusIn (completeStep (fun _ => none) exC1 "verify" exC1out).1 "US-1" =
      some .failed ∧
    stepStatusIn (completeStep (fun _ => none) exC1 "verify" exC1out).1 "implement" =
      some .waiting := by
  refine ⟨by decide, by decide, by decide, by decide⟩

/-- Witness data for C1 (amended): same scenario without any `onFail`. -/
def exC1bimpl : StepInst :=
  { defId := "implement", agentId := "dev", stepIndex := 1, type := .loop,
    loop := some { verifyEach := true, verifyStep := some "verify" },
    status := .running, onFail := none }

def exC1b : RunState :=
  { status := .running, steps := [exC1plan, exC1bimpl, exC1verify],
    stories := [exC1story], lastDoneStory := some "US-1" }

/-- Witness for C1 (amended): at the concrete exhausting retry the
invariant is preserved, the story fails, and — with no `onFail` — the
loop step's committed status is `failed`. -/
theorem verify_retry_bound_and_exhaustion_witness :
    RetryInv (completeStep (fun _ => none) exC1b "verify" exC1out).1 ∧
    storyStatusIn (completeStep (fun _ => none) exC1b "verify" exC1out).1 "US-1" =
      some .failed ∧
    stepStatusIn (completeStep (fun _ => none) exC1b "verify" exC1out).1 "implement" =
      some .failed := by
  have h := verify_retry_bound_and_exhaustion (fun _ => none) exC1b "verify" exC1out
    exC1verify exC1bimpl "US-1" exC1story
    (by unfold RetryInv; decide) (by decide) (by decide) rfl (by decide) (by decide)
    (by decide) (by decide) rfl (by decide) rfl
  exact ⟨h.1, (h.2 (by decide)).1, (h.2 (by decide)).2 rfl⟩

end Antfarm
